import Mathlib

set_option maxHeartbeats 1000000
set_option maxRecDepth 4096

/-
Shallow embedding of the semantic-analysis stage of the model compiler
(src/include/AST.h, src/src/AST.cpp, src/src/SemanticAnalyzer.cpp,
src/src/Driver.cpp). Pure data is translated to inductive types; the
mutable analyzer state (the symbol table, the error flag and the stream
of reported diagnostics) is threaded explicitly. Each C++ loop that
latches a success flag becomes a recursive helper carrying that flag.
-/

namespace ModelCompiler

/-- The enum class PrimitiveType of AST.h: the eight primitive types. -/
inductive PrimitiveType where
  | STRING | INT | REAL | BOOL | TIMESTAMP | TIMESPAN | DATE | GUID
  deriving DecidableEq, Repr, Fintype

/-- PrimitiveTypeSpec::TypeToString of AST.cpp. -/
def typeToString : PrimitiveType → String
  | .STRING => "String"
  | .INT => "Int"
  | .REAL => "Real"
  | .BOOL => "Bool"
  | .TIMESTAMP => "Timestamp"
  | .TIMESPAN => "Timespan"
  | .DATE => "Date"
  | .GUID => "Guid"

/-- TypeSpec of AST.h: primitive or user-defined. -/
inductive TypeSpec where
  | primitive (t : PrimitiveType)
  | userDefined (typeName : String)
  deriving DecidableEq, Repr

/-- TypeSpec::IsPrimitive. -/
def TypeSpec.isPrimitive : TypeSpec → Bool
  | .primitive _ => true
  | .userDefined _ => false

/-- TypeSpec::IsUserDefined. -/
def TypeSpec.isUserDefined : TypeSpec → Bool
  | .primitive _ => false
  | .userDefined _ => true

/-- Modifier of AST.h: a cardinality modifier (min, max, with max = -1 for
unbounded) or the unique modifier. -/
inductive Modifier where
  | cardinality (minCard maxCard : Int)
  | unique
  deriving DecidableEq, Repr

/-- CardinalityModifier::IsArray of AST.cpp lines 132-135: the maximum is
unbounded (-1) or greater than 1. It reads only the maximum. -/
def cardinalityIsArray (maxCard : Int) : Bool :=
  maxCard == -1 || maxCard > 1

/-- Expression::Type of AST.h. -/
inductive ExprType where
  | INT | REAL | BOOL | STRING | TIMESTAMP | TIMESPAN | DATE | GUID | VOID | UNKNOWN
  deriving DecidableEq, Repr, Fintype

/-- BinaryExpression::Op of AST.h. -/
inductive BinOp where
  | ADD | SUB | MUL | DIV | MOD | LT | GT | LE | GE | EQ | NE | AND | OR
  deriving DecidableEq, Repr, Fintype

/-- UnaryExpression::Op of AST.h. -/
inductive UnOp where
  | NEG | NOT
  deriving DecidableEq, Repr

/-- The four LiteralExpression constructors of AST.cpp; each fixes the
stored result type (the real payload is irrelevant to analysis and the
double is not modelled). -/
inductive LiteralValue where
  | intLit (v : Int)
  | realLit
  | strLit (s : String)
  | boolLit (b : Bool)
  deriving DecidableEq, Repr

/-- LiteralExpression::GetResultType: the type fixed at construction. -/
def literalResultType : LiteralValue → ExprType
  | .intLit _ => .INT
  | .realLit => .REAL
  | .strLit _ => .STRING
  | .boolLit _ => .BOOL

/-- The Expression tree of AST.h. -/
inductive Expression where
  | binary (left : Expression) (op : BinOp) (right : Expression)
  | unary (op : UnOp) (operand : Expression)
  | fieldRef (fieldName : String)
  | memberAccess (object : Expression) (memberName : String)
  | literal (v : LiteralValue)
  | functionCall (functionName : String) (args : List Expression)
  | paren (inner : Expression)

/-- Field of AST.h: type, name, modifiers, static flag and the optional
initializing expression of a computed feature. -/
structure Field where
  type : TypeSpec
  name : String
  modifiers : List Modifier
  isStatic : Bool
  initExpr : Option Expression

/-- Invariant of AST.h; the expression pointer may be null, which
ValidateInvariants checks for. -/
structure Invariant where
  name : String
  expression : Option Expression

/-- EnumDeclaration of AST.h. -/
structure EnumDeclaration where
  name : String
  values : List String
  deriving DecidableEq, Repr

/-- ClassDeclaration of AST.h; an empty baseType string means no explicit
base. -/
structure ClassDeclaration where
  name : String
  baseType : String
  fields : List Field
  invariants : List Invariant

/-- Declaration of AST.h: an enum or a class. -/
inductive Declaration where
  | enumDecl (d : EnumDeclaration)
  | classDecl (d : ClassDeclaration)

/-- The root AST node of AST.h. -/
structure AST where
  declarations : List Declaration

/-- ClassDeclaration::HasExplicitBase of AST.cpp: the base name is nonempty. -/
def ClassDeclaration.hasExplicitBase (c : ClassDeclaration) : Bool :=
  !c.baseType.isEmpty

/-- Modelled from the spec: Field::IsComputed is declared in AST.h but its
body is not among the repository sources under src/. The AST.h comment and
spec section 3 both state that a field is computed iff it has an
initializing expression. -/
def Field.isComputed (f : Field) : Bool :=
  f.initExpr.isSome

/-- Field::GetCardinalityModifier of AST.cpp: the first CARDINALITY
modifier in the list, as a (min, max) pair, if any. -/
def Field.getCardinalityModifier (f : Field) : Option (Int × Int) :=
  match f.modifiers.find? (fun m => match m with | .cardinality _ _ => true | .unique => false) with
  | some (.cardinality mn mx) => some (mn, mx)
  | _ => none

/-- TypeSymbol of SemanticAnalyzer.h: kind PRIMITIVE, ENUM or CLASS with
the owning declaration. -/
inductive TypeSymbol where
  | primitive (name : String)
  | enumSym (decl : EnumDeclaration)
  | classSym (decl : ClassDeclaration)

/-- The name field a TypeSymbol constructor stores. -/
def TypeSymbol.name : TypeSymbol → String
  | .primitive n => n
  | .enumSym d => d.name
  | .classSym d => d.name

/-- The std::map keyed symbol table, as an association list; insertion
only ever happens for a key that is absent, matching std::map::insert. -/
abbrev SymbolTable := List (String × TypeSymbol)

/-- SemanticAnalyzer::TypeExists: key membership. -/
def typeExists (tbl : SymbolTable) (typeName : String) : Bool :=
  tbl.any (fun p => p.1 == typeName)

/-- SemanticAnalyzer::LookupType: the symbol stored under the key. -/
def lookupType (tbl : SymbolTable) (typeName : String) : Option TypeSymbol :=
  (tbl.find? (fun p => p.1 == typeName)).map Prod.snd

/-- One std::map::insert: a no-op when the key exists. -/
def tableInsert (tbl : SymbolTable) (key : String) (sym : TypeSymbol) : SymbolTable :=
  if typeExists tbl key then tbl else tbl ++ [(key, sym)]

/-- SemanticAnalyzer::RegisterPrimitiveTypes: the eight primitive symbols. -/
def registerPrimitiveTypes (tbl : SymbolTable) : SymbolTable :=
  tableInsert (tableInsert (tableInsert (tableInsert (tableInsert (tableInsert (tableInsert (tableInsert tbl
    "String" (.primitive "String")) "Int" (.primitive "Int")) "Real" (.primitive "Real"))
    "Bool" (.primitive "Bool")) "Timestamp" (.primitive "Timestamp"))
    "Timespan" (.primitive "Timespan")) "Date" (.primitive "Date")) "Guid" (.primitive "Guid")

/-- One sorted insertion into a std::set of strings: kept sorted and
duplicate-free, so iteration order is the lexicographic order std::set
iteration has. -/
def setInsert (s : List String) (x : String) : List String :=
  match s with
  | [] => [x]
  | y :: rest => if x < y then x :: y :: rest else if x == y then y :: rest else y :: setInsert rest x

/-- One diagnostic, a constructor per ReportError call site of
SemanticAnalyzer.cpp, carrying the data interpolated into that message. -/
inductive Diag where
  | duplicateTypeName (typeName : String)
  | undefinedBaseType (className baseType : String)
  | invalidBaseTypeKind (className baseType : String)
  | circularInheritance (className : String)
  | undefinedFieldType (fieldName className typeName : String)
  | duplicateField (fieldName className : String)
  | invariantMissingExpression (invName className : String)
  | invariantUndefinedFieldRef (invName className fieldName : String)
  | computedArrayNotAllowed (fieldName className : String)
  | computedUndefinedFieldRef (fieldName className refName : String)
  | memberFieldNotFound (context fieldName className : String)
  | memberAccessOnNonClass (context memberName fieldName : String)
  | undefinedMember (context className memberName : String)
  | computedTypeMismatch (fieldName className declaredTypeName exprTypeName : String)
  deriving DecidableEq, Repr

/-- The error-reporting state of the analyzer: the hasErrors_ flag and the
stream of diagnostics sent to the console sink, in order. -/
structure ErrState where
  hasErrors : Bool
  diags : List Diag
  deriving DecidableEq, Repr

/-- SemanticAnalyzer::ReportError: emit the diagnostic and set the flag. -/
def reportError (s : ErrState) (d : Diag) : ErrState :=
  { hasErrors := true, diags := s.diags ++ [d] }

/-- The clean state at the start of one Analyze call. -/
def emptyErrState : ErrState := ⟨false, []⟩

/-- SemanticAnalyzer::HasInheritanceCycle, fuel-indexed: follow the base
chain; a name already visited means a cycle; a name that does not resolve
to a class, or a class without explicit base, ends the walk without a
cycle; otherwise mark the name visited and recurse into the base. The
fuel 0 case returning none stands for nontermination of the recursion. -/
def hasInheritanceCycleFuel (tbl : SymbolTable) : Nat → String → List String → Option Bool
  | 0, _, _ => none
  | fuel+1, className, visited =>
    if visited.contains className then some true
    else
      match lookupType tbl className with
      | some (.classSym cd) =>
        if cd.hasExplicitBase then
          hasInheritanceCycleFuel tbl fuel cd.baseType (setInsert visited className)
        else some false
      | _ => some false

/-- The cycle walk at the fuel the termination theorem shows sufficient. -/
def hasInheritanceCycle (tbl : SymbolTable) (className : String) (visited : List String) : Bool :=
  (hasInheritanceCycleFuel tbl (tbl.length + 2) className visited).getD false

/-- SemanticAnalyzer::GetAllFieldsHelper, fuel-indexed: stop on a visited
name, otherwise mark the name visited, collect base-class fields first
(when the base resolves to a class symbol), then append the own fields. -/
def getAllFieldsHelperFuel (tbl : SymbolTable) : Nat → ClassDeclaration → List String → Option (List Field)
  | 0, _, _ => none
  | fuel+1, cd, visited =>
    if visited.contains cd.name then some []
    else
      let visited2 := setInsert visited cd.name
      let baseFields : Option (List Field) :=
        if cd.hasExplicitBase then
          match lookupType tbl cd.baseType with
          | some (.classSym baseDecl) => getAllFieldsHelperFuel tbl fuel baseDecl visited2
          | _ => some []
        else some []
      match baseFields with
      | none => none
      | some bf => some (bf ++ cd.fields)

/-- SemanticAnalyzer::GetAllFields: the helper from an empty visited set,
at the fuel the termination theorem shows sufficient. -/
def getAllFields (tbl : SymbolTable) (cd : ClassDeclaration) : List Field :=
  (getAllFieldsHelperFuel tbl (tbl.length + 2) cd []).getD []

/-- SemanticAnalyzer::GetAllInvariantsHelper, fuel-indexed: same walk as
the field collection, collecting invariants. -/
def getAllInvariantsHelperFuel (tbl : SymbolTable) : Nat → ClassDeclaration → List String → Option (List Invariant)
  | 0, _, _ => none
  | fuel+1, cd, visited =>
    if visited.contains cd.name then some []
    else
      let visited2 := setInsert visited cd.name
      let baseInvs : Option (List Invariant) :=
        if cd.hasExplicitBase then
          match lookupType tbl cd.baseType with
          | some (.classSym baseDecl) => getAllInvariantsHelperFuel tbl fuel baseDecl visited2
          | _ => some []
        else some []
      match baseInvs with
      | none => none
      | some bi => some (bi ++ cd.invariants)

/-- SemanticAnalyzer::GetAllInvariants. -/
def getAllInvariants (tbl : SymbolTable) (cd : ClassDeclaration) : List Invariant :=
  (getAllInvariantsHelperFuel tbl (tbl.length + 2) cd []).getD []

mutual

/-- SemanticAnalyzer::CollectFieldReferences: gather every referenced
field name into the std::set accumulator; a member access recurses only
into its object; literals contribute nothing. -/
def collectFieldReferences : Expression → List String → List String
  | .fieldRef n, acc => setInsert acc n
  | .memberAccess obj _, acc => collectFieldReferences obj acc
  | .binary l _ r, acc => collectFieldReferences r (collectFieldReferences l acc)
  | .unary _ e, acc => collectFieldReferences e acc
  | .paren e, acc => collectFieldReferences e acc
  | .functionCall _ args, acc => collectFieldReferencesArgs args acc
  | .literal _, acc => acc

/-- The loop over function-call arguments in CollectFieldReferences. -/
def collectFieldReferencesArgs : List Expression → List String → List String
  | [], acc => acc
  | a :: rest, acc => collectFieldReferencesArgs rest (collectFieldReferences a acc)

end

/-- SemanticAnalyzer::GetFieldType: find the field (own or inherited) by
name; a primitive field type is looked up under its type name, a
user-defined one under its name. -/
def getFieldType (tbl : SymbolTable) (cd : ClassDeclaration) (fieldName : String) : Option TypeSymbol :=
  match (getAllFields tbl cd).find? (fun f => f.name == fieldName) with
  | none => none
  | some f =>
    match f.type with
    | .primitive p => lookupType tbl (typeToString p)
    | .userDefined n => lookupType tbl n

/-- SemanticAnalyzer::PrimitiveNameToExpressionType: note that it has no
case for the name Date, which therefore falls through to UNKNOWN. -/
def primitiveNameToExpressionType (typeName : String) : ExprType :=
  if typeName == "Int" then .INT
  else if typeName == "Real" then .REAL
  else if typeName == "String" then .STRING
  else if typeName == "Bool" then .BOOL
  else if typeName == "Timestamp" then .TIMESTAMP
  else if typeName == "Timespan" then .TIMESPAN
  else if typeName == "Guid" then .GUID
  else .UNKNOWN

/-- SemanticAnalyzer::InferExpressionType: literals carry their type; a
field reference resolves through GetFieldType and maps a primitive symbol
name; a member access resolves one hop when its object is a direct field
reference of class type; comparisons and logical operators yield BOOL;
arithmetic widens to REAL when either side is REAL, TIMESTAMP or
TIMESPAN; NOT yields BOOL and NEG the operand type; a function call has
result type UNKNOWN. -/
def inferExpressionType (tbl : SymbolTable) (cd : ClassDeclaration) : Expression → ExprType
  | .literal v => literalResultType v
  | .fieldRef n =>
    match getFieldType tbl cd n with
    | some (.primitive pname) => primitiveNameToExpressionType pname
    | some _ => .UNKNOWN
    | none => .UNKNOWN
  | .memberAccess obj member =>
    match obj with
    | .fieldRef objName =>
      match getFieldType tbl cd objName with
      | some (.classSym objClass) =>
        match getFieldType tbl objClass member with
        | some (.primitive pname) => primitiveNameToExpressionType pname
        | _ => .UNKNOWN
      | _ => .UNKNOWN
    | _ => .UNKNOWN
  | .binary l op r =>
    if op == .LT || op == .GT || op == .LE || op == .GE || op == .EQ || op == .NE || op == .AND || op == .OR then
      .BOOL
    else
      let leftType := inferExpressionType tbl cd l
      let rightType := inferExpressionType tbl cd r
      if leftType == .UNKNOWN || rightType == .UNKNOWN then .UNKNOWN
      else if leftType == .REAL || rightType == .REAL || leftType == .TIMESTAMP || rightType == .TIMESTAMP
          || leftType == .TIMESPAN || rightType == .TIMESPAN then .REAL
      else if leftType == .INT && rightType == .INT then .INT
      else if leftType == .STRING && rightType == .STRING && op == .ADD then .STRING
      else .UNKNOWN
  | .unary op e =>
    if op == .NOT then .BOOL else inferExpressionType tbl cd e
  | .paren e => inferExpressionType tbl cd e
  | .functionCall _ _ => .UNKNOWN

/-- SemanticAnalyzer::IsTypeCompatible: user-defined declared types are
accepted unchecked; a primitive declared type is mapped through
PrimitiveNameToExpressionType of its TypeToString name and then: exact
match, INT against REAL, REAL against TIMESTAMP or TIMESPAN, and
TIMESTAMP or TIMESPAN against REAL are compatible; nothing else is. -/
def isTypeCompatible (exprType : ExprType) (fieldTypeSpec : TypeSpec) : Bool :=
  match fieldTypeSpec with
  | .userDefined _ => true
  | .primitive p =>
    let fieldType := primitiveNameToExpressionType (typeToString p)
    if exprType == fieldType then true
    else if exprType == .INT && fieldType == .REAL then true
    else if exprType == .REAL && (fieldType == .TIMESTAMP || fieldType == .TIMESPAN) then true
    else if (exprType == .TIMESTAMP || exprType == .TIMESPAN) && fieldType == .REAL then true
    else false

/-- The switch in ValidateComputedFeatureExpression that renders the
inferred expression type for the mismatch message; DATE, VOID and UNKNOWN
fall to the default. -/
def exprTypeNameOf : ExprType → String
  | .INT => "Int"
  | .REAL => "Real"
  | .STRING => "String"
  | .BOOL => "Bool"
  | .TIMESTAMP => "Timestamp"
  | .TIMESPAN => "Timespan"
  | .GUID => "Guid"
  | _ => "Unknown"

/-- SemanticAnalyzer::ValidateMemberAccess on the (object, memberName)
pair of a MemberAccessExpression: a direct field-reference object must
resolve, be of class kind, and own the member; a nested member access is
validated recursively; any other object shape passes. -/
def validateMemberAccess (tbl : SymbolTable) (cd : ClassDeclaration) (context : String) :
    Expression → String → ErrState → Bool × ErrState
  | .fieldRef objectFieldName, memberName, s =>
    (match getFieldType tbl cd objectFieldName with
     | none => (false, reportError s (.memberFieldNotFound context objectFieldName cd.name))
     | some (.classSym fieldClass) =>
       (match getFieldType tbl fieldClass memberName with
        | none => (false, reportError s (.undefinedMember context fieldClass.name memberName))
        | some _ => (true, s))
     | some _ => (false, reportError s (.memberAccessOnNonClass context memberName objectFieldName)))
  | .memberAccess innerObj innerMember, _, s =>
    let r := validateMemberAccess tbl cd context innerObj innerMember s
    if r.1 then (true, r.2) else (false, r.2)
  | _, _, s => (true, s)

mutual

/-- SemanticAnalyzer::ValidateMemberAccessInExpression: a member access
node is handled by ValidateMemberAccess without further recursion; binary,
unary, parenthesized and function-call shapes are walked structurally;
field references and literals need no validation. -/
def validateMemberAccessInExpression (tbl : SymbolTable) (cd : ClassDeclaration) (context : String) :
    Expression → ErrState → Bool × ErrState
  | .memberAccess obj member, s => validateMemberAccess tbl cd context obj member s
  | .binary l _ r, s =>
    let rl := validateMemberAccessInExpression tbl cd context l s
    let rr := validateMemberAccessInExpression tbl cd context r rl.2
    (rl.1 && rr.1, rr.2)
  | .unary _ e, s => validateMemberAccessInExpression tbl cd context e s
  | .paren e, s => validateMemberAccessInExpression tbl cd context e s
  | .functionCall _ args, s => validateMemberAccessArgs tbl cd context args s
  | _, s => (true, s)

/-- The loop over function-call arguments in
ValidateMemberAccessInExpression, latching its success flag. -/
def validateMemberAccessArgs (tbl : SymbolTable) (cd : ClassDeclaration) (context : String) :
    List Expression → ErrState → Bool × ErrState
  | [], s => (true, s)
  | a :: rest, s =>
    let ra := validateMemberAccessInExpression tbl cd context a s
    let rr := validateMemberAccessArgs tbl cd context rest ra.2
    (ra.1 && rr.1, rr.2)

end

/-- The loop of ValidateComputedFeatureExpression over the referenced
field names, reporting each one absent from the available set. -/
def computedRefsLoop (fieldName className : String) (availableFields : List String) :
    List String → Bool → ErrState → Bool × ErrState
  | [], success, s => (success, s)
  | refName :: rest, success, s =>
    if availableFields.contains refName then
      computedRefsLoop fieldName className availableFields rest success s
    else
      computedRefsLoop fieldName className availableFields rest false
        (reportError s (.computedUndefinedFieldRef fieldName className refName))

/-- The cardinality check of ValidateComputedFeatureExpression: an array
cardinality on a computed feature is reported. -/
def computedCardinalityCheck (cd : ClassDeclaration) (f : Field) (s : ErrState) : Bool × ErrState :=
  match f.getCardinalityModifier with
  | some (_, maxCard) =>
    if cardinalityIsArray maxCard then
      (false, reportError s (.computedArrayNotAllowed f.name cd.name))
    else (true, s)
  | none => (true, s)

/-- The type-compatibility check at the end of
ValidateComputedFeatureExpression: only an inferred type other than
UNKNOWN is checked against the declared field type; on incompatibility the
mismatch is reported with the rendered type names. -/
def computedTypeCheck (tbl : SymbolTable) (cd : ClassDeclaration) (f : Field) (expr : Expression)
    (b : Bool) (s : ErrState) : Bool × ErrState :=
  let exprType := inferExpressionType tbl cd expr
  if exprType != ExprType.UNKNOWN && !isTypeCompatible exprType f.type then
    let fieldTypeName :=
      match f.type with
      | .primitive p => typeToString p
      | .userDefined n => n
    (b && false, reportError s (.computedTypeMismatch f.name cd.name fieldTypeName (exprTypeNameOf exprType)))
  else (b, s)

/-- SemanticAnalyzer::ValidateComputedFeatureExpression: nothing to do
without an initializing expression; otherwise the cardinality check, the
reference check, the member-access validation and the type-compatibility
check run in sequence on one latched success flag. -/
def validateComputedFeatureExpression (tbl : SymbolTable) (cd : ClassDeclaration)
    (availableFields : List String) (f : Field) (s : ErrState) : Bool × ErrState :=
  match f.initExpr with
  | none => (true, s)
  | some expr =>
    let r1 := computedCardinalityCheck cd f s
    let referencedFields := collectFieldReferences expr []
    let r2 := computedRefsLoop f.name cd.name availableFields referencedFields r1.1 r1.2
    let rm := validateMemberAccessInExpression tbl cd f.name expr r2.2
    computedTypeCheck tbl cd f expr (r2.1 && rm.1) rm.2

/-- The loop of ValidateComputedFeatures over the own fields, validating
each computed one. -/
def computedFeaturesLoop (tbl : SymbolTable) (cd : ClassDeclaration) (availableFields : List String) :
    List Field → Bool → ErrState → Bool × ErrState
  | [], success, s => (success, s)
  | f :: rest, success, s =>
    if f.isComputed then
      let r := validateComputedFeatureExpression tbl cd availableFields f s
      computedFeaturesLoop tbl cd availableFields rest (success && r.1) r.2
    else
      computedFeaturesLoop tbl cd availableFields rest success s

/-- SemanticAnalyzer::ValidateComputedFeatures: build the available field
name set from all fields including inherited, then validate each computed
own field. -/
def validateComputedFeatures (tbl : SymbolTable) (cd : ClassDeclaration) (s : ErrState) : Bool × ErrState :=
  let allFields := getAllFields tbl cd
  let availableFields := allFields.foldl (fun acc f => setInsert acc f.name) []
  computedFeaturesLoop tbl cd availableFields cd.fields true s

/-- The loop of ValidateFieldUniqueness: scan the combined field list
accumulating seen names, reporting a name already seen. -/
def fieldUniquenessLoop (className : String) :
    List Field → List String → Bool → ErrState → Bool × ErrState
  | [], _, success, s => (success, s)
  | f :: rest, seenNames, success, s =>
    if seenNames.contains f.name then
      fieldUniquenessLoop className rest (setInsert seenNames f.name) false
        (reportError s (.duplicateField f.name className))
    else
      fieldUniquenessLoop className rest (setInsert seenNames f.name) success s

/-- SemanticAnalyzer::ValidateFieldUniqueness over the base-first combined
field list. -/
def validateFieldUniqueness (tbl : SymbolTable) (cd : ClassDeclaration) (s : ErrState) : Bool × ErrState :=
  fieldUniquenessLoop cd.name (getAllFields tbl cd) [] true s

/-- The loop of ValidateInvariants over the field names referenced by one
invariant expression, reporting each one absent from the field set. -/
def invariantRefsLoop (invName className : String) (fieldNames : List String) :
    List String → Bool → ErrState → Bool × ErrState
  | [], success, s => (success, s)
  | refName :: rest, success, s =>
    if fieldNames.contains refName then
      invariantRefsLoop invName className fieldNames rest success s
    else
      invariantRefsLoop invName className fieldNames rest false
        (reportError s (.invariantUndefinedFieldRef invName className refName))

/-- The loop of ValidateInvariants over the own invariants: one without an
expression is reported and skipped; otherwise every referenced field name
must exist. -/
def invariantsLoop (className : String) (fieldNames : List String) :
    List Invariant → Bool → ErrState → Bool × ErrState
  | [], success, s => (success, s)
  | inv :: rest, success, s =>
    match inv.expression with
    | none =>
      invariantsLoop className fieldNames rest false
        (reportError s (.invariantMissingExpression inv.name className))
    | some expr =>
      let referencedFields := collectFieldReferences expr []
      let r := invariantRefsLoop inv.name className fieldNames referencedFields success s
      invariantsLoop className fieldNames rest r.1 r.2

/-- SemanticAnalyzer::ValidateInvariants: the combined field-name set,
then each own invariant. -/
def validateInvariants (tbl : SymbolTable) (cd : ClassDeclaration) (s : ErrState) : Bool × ErrState :=
  let allFields := getAllFields tbl cd
  let fieldNames := allFields.foldl (fun acc f => setInsert acc f.name) []
  invariantsLoop cd.name fieldNames cd.invariants true s

/-- The loop of ValidateClassDeclaration over the own fields: a
user-defined field type must exist in the symbol table. -/
def fieldTypesLoop (tbl : SymbolTable) (className : String) :
    List Field → Bool → ErrState → Bool × ErrState
  | [], success, s => (success, s)
  | f :: rest, success, s =>
    match f.type with
    | .userDefined typeName =>
      if typeExists tbl typeName then
        fieldTypesLoop tbl className rest success s
      else
        fieldTypesLoop tbl className rest false
          (reportError s (.undefinedFieldType f.name className typeName))
    | .primitive _ => fieldTypesLoop tbl className rest success s

/-- SemanticAnalyzer::ValidateClassDeclaration: base-type existence and
kind, own field types, field uniqueness, invariants and computed features,
all on one latched success flag. -/
def validateClassDeclaration (tbl : SymbolTable) (cd : ClassDeclaration) (s : ErrState) : Bool × ErrState :=
  let r1 : Bool × ErrState :=
    if cd.hasExplicitBase then
      if !typeExists tbl cd.baseType then
        (false, reportError s (.undefinedBaseType cd.name cd.baseType))
      else
        match lookupType tbl cd.baseType with
        | some (.classSym _) => (true, s)
        | _ => (false, reportError s (.invalidBaseTypeKind cd.name cd.baseType))
    else (true, s)
  let r2 := fieldTypesLoop tbl cd.name cd.fields r1.1 r1.2
  let ru := validateFieldUniqueness tbl cd r2.2
  let r3 : Bool × ErrState := (r2.1 && ru.1, ru.2)
  let ri := validateInvariants tbl cd r3.2
  let r4 : Bool × ErrState := (r3.1 && ri.1, ri.2)
  let rc := validateComputedFeatures tbl cd r4.2
  (r4.1 && rc.1, rc.2)

/-- The first pass of ValidateTypeReferences: validate each class
declaration. -/
def validateClassesPass (tbl : SymbolTable) :
    List Declaration → Bool → ErrState → Bool × ErrState
  | [], success, s => (success, s)
  | .enumDecl _ :: rest, success, s => validateClassesPass tbl rest success s
  | .classDecl cd :: rest, success, s =>
    let r := validateClassDeclaration tbl cd s
    validateClassesPass tbl rest (success && r.1) r.2

/-- The second pass of ValidateTypeReferences: for each class with an
explicit base, walk the base chain from a visited set seeded with the
class name, reporting a circular inheritance. -/
def cyclesPass (tbl : SymbolTable) :
    List Declaration → Bool → ErrState → Bool × ErrState
  | [], success, s => (success, s)
  | .enumDecl _ :: rest, success, s => cyclesPass tbl rest success s
  | .classDecl cd :: rest, success, s =>
    if cd.hasExplicitBase then
      if hasInheritanceCycle tbl cd.baseType (setInsert [] cd.name) then
        cyclesPass tbl rest false (reportError s (.circularInheritance cd.name))
      else cyclesPass tbl rest success s
    else cyclesPass tbl rest success s

/-- SemanticAnalyzer::ValidateTypeReferences: both passes in order. -/
def validateTypeReferences (tbl : SymbolTable) (s : ErrState) (decls : List Declaration) : Bool × ErrState :=
  let p1 := validateClassesPass tbl decls true s
  cyclesPass tbl decls p1.1 p1.2

/-- The loop of BuildSymbolTable: a declaration whose name already exists
is reported and skipped; otherwise its symbol is inserted. -/
def buildSymbolTableLoop :
    List Declaration → SymbolTable → Bool → ErrState → Bool × SymbolTable × ErrState
  | [], tbl, success, s => (success, tbl, s)
  | .enumDecl e :: rest, tbl, success, s =>
    if typeExists tbl e.name then
      buildSymbolTableLoop rest tbl false (reportError s (.duplicateTypeName e.name))
    else
      buildSymbolTableLoop rest (tableInsert tbl e.name (.enumSym e)) success s
  | .classDecl c :: rest, tbl, success, s =>
    if typeExists tbl c.name then
      buildSymbolTableLoop rest tbl false (reportError s (.duplicateTypeName c.name))
    else
      buildSymbolTableLoop rest (tableInsert tbl c.name (.classSym c)) success s

/-- SemanticAnalyzer::BuildSymbolTable. -/
def buildSymbolTable (tbl : SymbolTable) (s : ErrState) (decls : List Declaration) : Bool × SymbolTable × ErrState :=
  buildSymbolTableLoop decls tbl true s

/-- SemanticAnalyzer::Analyze: register the primitives, build the symbol
table, validate type references, with an early false return after a
failed stage, and finally the negation of the error flag. -/
def analyze (ast : AST) : Bool × SymbolTable × ErrState :=
  let tbl0 := registerPrimitiveTypes []
  let rB := buildSymbolTable tbl0 emptyErrState ast.declarations
  if !rB.1 then (false, rB.2.1, rB.2.2)
  else
    let rV := validateTypeReferences rB.2.1 rB.2.2 ast.declarations
    if !rV.1 then (false, rB.2.1, rV.2)
    else (!rV.2.hasErrors, rB.2.1, rV.2)

/-- One message sent to the console: a driver error, a driver status line,
or a semantic diagnostic (which Console::ReportError receives with the
prefix Semantic error followed by the rendered message). -/
inductive ConsoleMsg where
  | errorMsg (s : String)
  | statusMsg (s : String)
  | semanticError (d : Diag)
  deriving Repr

/-- Driver::Phase1: a null declaration tree is rejected up front with a
driver error and no analyzer is ever constructed; otherwise the analysis
runs after the started status line, its diagnostics go to the console,
and failure or success is reported, returning the analyzer state only on
success. -/
def phase1 : Option AST → Option (SymbolTable × ErrState) × List ConsoleMsg
  | none => (none, [.errorMsg "Error: Cannot perform semantic analysis on null AST"])
  | some ast =>
    let r := analyze ast
    let analysisMsgs := r.2.2.diags.map ConsoleMsg.semanticError
    if r.1 then
      (some (r.2.1, r.2.2),
        .statusMsg "Phase 1 (Semantic Analysis) started..." ::
          (analysisMsgs ++ [.statusMsg "Phase 1 (Semantic Analysis) completed successfully!"]))
    else
      (none,
        .statusMsg "Phase 1 (Semantic Analysis) started..." ::
          (analysisMsgs ++ [.errorMsg "Phase 1 (Semantic Analysis) failed with errors."]))

/-- The eight names RegisterPrimitiveTypes seeds the table with. -/
def primitiveNames : List String :=
  ["String", "Int", "Real", "Bool", "Timestamp", "Timespan", "Date", "Guid"]

/-- The primitive table RegisterPrimitiveTypes builds from an empty map. -/
def primTbl : SymbolTable := registerPrimitiveTypes []

theorem primTbl_eq : primTbl = [("String", .primitive "String"), ("Int", .primitive "Int"),
    ("Real", .primitive "Real"), ("Bool", .primitive "Bool"), ("Timestamp", .primitive "Timestamp"),
    ("Timespan", .primitive "Timespan"), ("Date", .primitive "Date"), ("Guid", .primitive "Guid")] := rfl

theorem mem_setInsert (a x : String) : ∀ l : List String, x ∈ setInsert l a ↔ x = a ∨ x ∈ l := by
  intro l
  induction l with
  | nil => simp [setInsert]
  | cons z rest ih =>
    by_cases h1 : a < z
    · simp [setInsert, h1, List.mem_cons, or_assoc]
    · by_cases h2 : (a == z) = true
      · have hz : a = z := by simpa using h2
        subst hz
        have he : setInsert (a :: rest) a = a :: rest := by
          simp [setInsert, h1]
        rw [he, List.mem_cons]
        tauto
      · have he : setInsert (z :: rest) a = z :: setInsert rest a := by
          simp [setInsert, h1, h2]
        rw [he, List.mem_cons, List.mem_cons, ih]
        tauto

theorem contains_true_of_mem {l : List String} {x : String} (h : x ∈ l) : l.contains x = true :=
  List.elem_iff.mpr h

theorem contains_false_of_not_mem {l : List String} {x : String} (h : x ∉ l) : l.contains x = false := by
  rw [Bool.eq_false_iff]
  intro hc
  exact h (List.elem_iff.mp hc)

theorem isEmpty_false_of_ne {s : String} (h : s ≠ "") : s.isEmpty = false := by
  rw [Bool.eq_false_iff]
  intro hc
  exact h ((String.isEmpty_iff s).mp hc)

theorem isEmpty_append (d1 d2 : List Diag) : (d1 ++ d2).isEmpty = (d1.isEmpty && d2.isEmpty) := by
  cases d1 <;> simp [List.isEmpty]

/-- Discriminator for the type-mismatch diagnostic. -/
def Diag.isMismatchDiag : Diag → Bool
  | .computedTypeMismatch _ _ _ _ => true
  | _ => false

/-- Description of one validator step: the result extends the incoming
diagnostics by some list d, the error flag becomes set iff it was or d is
nonempty, the returned flag is the incoming latch conjoined with the
emptiness of d, and every emitted diagnostic satisfies P. -/
def Emits (P : Diag → Prop) (b : Bool) (s : ErrState) (r : Bool × ErrState) : Prop :=
  ∃ d, r.2.diags = s.diags ++ d ∧ r.2.hasErrors = (s.hasErrors || !d.isEmpty) ∧
    r.1 = (b && d.isEmpty) ∧ ∀ x ∈ d, P x

theorem Emits.same (P : Diag → Prop) (b : Bool) (s : ErrState) : Emits P b s (b, s) :=
  ⟨[], by simp, by simp, by simp, by simp⟩

theorem Emits.report (P : Diag → Prop) (b : Bool) (s : ErrState) (dg : Diag) (h : P dg) :
    Emits P b s (false, reportError s dg) :=
  ⟨[dg], rfl, by simp [reportError], by simp, by simpa⟩

theorem Emits.trans {P : Diag → Prop} {b : Bool} {s : ErrState} {r1 r2 : Bool × ErrState}
    (h1 : Emits P b s r1) (h2 : Emits P r1.1 r1.2 r2) : Emits P b s r2 := by
  obtain ⟨d1, hd1, he1, hb1, hp1⟩ := h1
  obtain ⟨d2, hd2, he2, hb2, hp2⟩ := h2
  refine ⟨d1 ++ d2, ?_, ?_, ?_, ?_⟩
  · rw [hd2, hd1, List.append_assoc]
  · rw [he2, he1, isEmpty_append, Bool.not_and, Bool.or_assoc]
  · rw [hb2, hb1, isEmpty_append, Bool.and_assoc]
  · intro x hx
    rcases List.mem_append.mp hx with h | h
    · exact hp1 x h
    · exact hp2 x h

theorem Emits.latch {P : Diag → Prop} {s : ErrState} {r : Bool × ErrState}
    (b : Bool) (h : Emits P true s r) : Emits P b s (b && r.1, r.2) := by
  obtain ⟨d, hd, he, hb, hp⟩ := h
  exact ⟨d, hd, he, by rw [hb, Bool.true_and], hp⟩

theorem Emits.mono {P Q : Diag → Prop} {b : Bool} {s : ErrState} {r : Bool × ErrState}
    (h : Emits P b s r) (hpq : ∀ x, P x → Q x) : Emits Q b s r := by
  obtain ⟨d, hd, he, hb, hp⟩ := h
  exact ⟨d, hd, he, hb, fun x hx => hpq x (hp x hx)⟩

theorem Emits.mem_diags {P : Diag → Prop} {b : Bool} {s : ErrState} {r : Bool × ErrState}
    (h : Emits P b s r) {x : Diag} (hx : x ∈ s.diags) : x ∈ r.2.diags := by
  obtain ⟨d, hd, _, _, _⟩ := h
  rw [hd]
  exact List.mem_append_left _ hx

theorem Emits.pair {P : Diag → Prop} {s : ErrState} {r1 r2 : Bool × ErrState}
    (h1 : Emits P true s r1) (h2 : Emits P true r1.2 r2) :
    Emits P true s (r1.1 && r2.1, r2.2) := by
  obtain ⟨d1, hd1, he1, hb1, hp1⟩ := h1
  obtain ⟨d2, hd2, he2, hb2, hp2⟩ := h2
  refine ⟨d1 ++ d2, ?_, ?_, ?_, ?_⟩
  · rw [hd2, hd1, List.append_assoc]
  · rw [he2, he1, isEmpty_append, Bool.not_and, Bool.or_assoc]
  · rw [hb1, hb2, isEmpty_append]
    simp [Bool.and_assoc]
  · intro x hx
    rcases List.mem_append.mp hx with h | h
    · exact hp1 x h
    · exact hp2 x h

theorem Emits.collapse {P : Diag → Prop} {s : ErrState} {r : Bool × ErrState}
    (h : Emits P true s r) : Emits P true s (if r.1 then (true, r.2) else (false, r.2)) := by
  obtain ⟨d, hd, he, hb, hp⟩ := h
  by_cases hr : r.1 = true
  · rw [if_pos hr]
    exact ⟨d, hd, he, hr ▸ hb, hp⟩
  · rw [if_neg hr]
    have hf : r.1 = false := Bool.eq_false_iff.mpr hr
    exact ⟨d, hd, he, hf ▸ hb, hp⟩

/-- No diagnostic of the list is the type-mismatch one. -/
def NoMM (x : Diag) : Prop := x.isMismatchDiag = false

theorem computedRefsLoop_emits (fn cn : String) (avail : List String) :
    ∀ (l : List String) (b : Bool) (s : ErrState),
      Emits NoMM b s (computedRefsLoop fn cn avail l b s) := by
  intro l
  induction l with
  | nil => intro b s; exact Emits.same NoMM b s
  | cons refName rest ih =>
    intro b s
    by_cases h : refName ∈ avail
    · simpa [computedRefsLoop, h] using ih b s
    · have h1 : Emits NoMM b s (false, reportError s (.computedUndefinedFieldRef fn cn refName)) :=
        Emits.report NoMM b s _ rfl
      have h2 := ih false (reportError s (.computedUndefinedFieldRef fn cn refName))
      simpa [computedRefsLoop, h] using Emits.trans h1 h2

theorem fieldUniquenessLoop_emits (cn : String) :
    ∀ (l : List Field) (seen : List String) (b : Bool) (s : ErrState),
      Emits (fun _ => True) b s (fieldUniquenessLoop cn l seen b s) := by
  intro l
  induction l with
  | nil => intro seen b s; exact Emits.same _ b s
  | cons f rest ih =>
    intro seen b s
    by_cases h : f.name ∈ seen
    · have h1 : Emits (fun _ => True) b s (false, reportError s (.duplicateField f.name cn)) :=
        Emits.report _ b s _ trivial
      have h2 := ih (setInsert seen f.name) false (reportError s (.duplicateField f.name cn))
      simpa [fieldUniquenessLoop, h] using Emits.trans h1 h2
    · simpa [fieldUniquenessLoop, h] using ih (setInsert seen f.name) b s

theorem invariantRefsLoop_emits (invName cn : String) (fieldNames : List String) :
    ∀ (l : List String) (b : Bool) (s : ErrState),
      Emits (fun _ => True) b s (invariantRefsLoop invName cn fieldNames l b s) := by
  intro l
  induction l with
  | nil => intro b s; exact Emits.same _ b s
  | cons refName rest ih =>
    intro b s
    by_cases h : refName ∈ fieldNames
    · simpa [invariantRefsLoop, h] using ih b s
    · have h1 : Emits (fun _ => True) b s (false, reportError s (.invariantUndefinedFieldRef invName cn refName)) :=
        Emits.report _ b s _ trivial
      have h2 := ih false (reportError s (.invariantUndefinedFieldRef invName cn refName))
      simpa [invariantRefsLoop, h] using Emits.trans h1 h2

theorem invariantsLoop_emits (cn : String) (fieldNames : List String) :
    ∀ (l : List Invariant) (b : Bool) (s : ErrState),
      Emits (fun _ => True) b s (invariantsLoop cn fieldNames l b s) := by
  intro l
  induction l with
  | nil => intro b s; exact Emits.same _ b s
  | cons inv rest ih =>
    intro b s
    cases hexpr : inv.expression with
    | none =>
      have h1 : Emits (fun _ => True) b s (false, reportError s (.invariantMissingExpression inv.name cn)) :=
        Emits.report _ b s _ trivial
      have h2 := ih false (reportError s (.invariantMissingExpression inv.name cn))
      simpa [invariantsLoop, hexpr] using Emits.trans h1 h2
    | some expr =>
      have h1 := invariantRefsLoop_emits inv.name cn fieldNames (collectFieldReferences expr []) b s
      have h2 := ih (invariantRefsLoop inv.name cn fieldNames (collectFieldReferences expr []) b s).1
        (invariantRefsLoop inv.name cn fieldNames (collectFieldReferences expr []) b s).2
      simpa [invariantsLoop, hexpr] using Emits.trans h1 h2

theorem fieldTypesLoop_emits (tbl : SymbolTable) (cn : String) :
    ∀ (l : List Field) (b : Bool) (s : ErrState),
      Emits (fun _ => True) b s (fieldTypesLoop tbl cn l b s) := by
  intro l
  induction l with
  | nil => intro b s; exact Emits.same _ b s
  | cons f rest ih =>
    intro b s
    cases hty : f.type with
    | primitive p => simpa [fieldTypesLoop, hty] using ih b s
    | userDefined typeName =>
      by_cases h : typeExists tbl typeName = true
      · simpa [fieldTypesLoop, hty, h] using ih b s
      · have hf : typeExists tbl typeName = false := Bool.eq_false_iff.mpr h
        have h1 : Emits (fun _ => True) b s (false, reportError s (.undefinedFieldType f.name cn typeName)) :=
          Emits.report _ b s _ trivial
        have h2 := ih false (reportError s (.undefinedFieldType f.name cn typeName))
        simpa [fieldTypesLoop, hty, hf] using Emits.trans h1 h2

theorem validateMemberAccess_emits (tbl : SymbolTable) (cd : ClassDeclaration) (ctx : String)
    (e : Expression) : ∀ (mn : String) (s : ErrState),
      Emits NoMM true s (validateMemberAccess tbl cd ctx e mn s) := by
  cases e with
  | fieldRef objectFieldName =>
    intro mn s
    simp only [validateMemberAccess]
    split
    · exact Emits.report NoMM true s _ rfl
    · split
      · exact Emits.report NoMM true s _ rfl
      · exact Emits.same NoMM true s
    · exact Emits.report NoMM true s _ rfl
  | memberAccess innerObj innerMember =>
    intro mn s
    have ih := validateMemberAccess_emits tbl cd ctx innerObj innerMember s
    simpa [validateMemberAccess] using Emits.collapse ih
  | binary l op r => intro mn s; exact Emits.same NoMM true s
  | unary op e1 => intro mn s; exact Emits.same NoMM true s
  | literal v => intro mn s; exact Emits.same NoMM true s
  | functionCall fn args => intro mn s; exact Emits.same NoMM true s
  | paren inner => intro mn s; exact Emits.same NoMM true s

mutual

theorem validateMemberAccessInExpression_emits (tbl : SymbolTable) (cd : ClassDeclaration) (ctx : String)
    (e : Expression) : ∀ s : ErrState, Emits NoMM true s (validateMemberAccessInExpression tbl cd ctx e s) := by
  cases e with
  | memberAccess obj member =>
    intro s
    simpa [validateMemberAccessInExpression] using validateMemberAccess_emits tbl cd ctx obj member s
  | binary l op r =>
    intro s
    have h1 := validateMemberAccessInExpression_emits tbl cd ctx l s
    have h2 := validateMemberAccessInExpression_emits tbl cd ctx r
      (validateMemberAccessInExpression tbl cd ctx l s).2
    simpa [validateMemberAccessInExpression] using Emits.pair h1 h2
  | unary op e1 =>
    intro s
    simpa [validateMemberAccessInExpression] using validateMemberAccessInExpression_emits tbl cd ctx e1 s
  | paren inner =>
    intro s
    simpa [validateMemberAccessInExpression] using validateMemberAccessInExpression_emits tbl cd ctx inner s
  | functionCall fn args =>
    intro s
    simpa [validateMemberAccessInExpression] using validateMemberAccessArgs_emits tbl cd ctx args s
  | fieldRef n => intro s; exact Emits.same NoMM true s
  | literal v => intro s; exact Emits.same NoMM true s

theorem validateMemberAccessArgs_emits (tbl : SymbolTable) (cd : ClassDeclaration) (ctx : String)
    (l : List Expression) : ∀ s : ErrState, Emits NoMM true s (validateMemberAccessArgs tbl cd ctx l s) := by
  cases l with
  | nil => intro s; exact Emits.same NoMM true s
  | cons a rest =>
    intro s
    have h1 := validateMemberAccessInExpression_emits tbl cd ctx a s
    have h2 := validateMemberAccessArgs_emits tbl cd ctx rest
      (validateMemberAccessInExpression tbl cd ctx a s).2
    simpa [validateMemberAccessArgs] using Emits.pair h1 h2

end

theorem computedCardinalityCheck_emits (cd : ClassDeclaration) (f : Field) (s : ErrState) :
    Emits NoMM true s (computedCardinalityCheck cd f s) := by
  unfold computedCardinalityCheck
  split
  · split
    · exact Emits.report NoMM true s _ rfl
    · exact Emits.same NoMM true s
  · exact Emits.same NoMM true s

theorem computedTypeCheck_emits (tbl : SymbolTable) (cd : ClassDeclaration) (f : Field)
    (expr : Expression) (b : Bool) (s : ErrState) :
    Emits (fun _ => True) b s (computedTypeCheck tbl cd f expr b s) := by
  simp only [computedTypeCheck]
  by_cases h : (inferExpressionType tbl cd expr != ExprType.UNKNOWN &&
      !isTypeCompatible (inferExpressionType tbl cd expr) f.type) = true
  · rw [if_pos h]
    refine ⟨[_], rfl, by simp [reportError], by simp [List.isEmpty], fun x _ => trivial⟩
  · rw [if_neg h]
    exact Emits.same _ b s

theorem computedTypeCheck_unknown (tbl : SymbolTable) (cd : ClassDeclaration) (f : Field)
    (expr : Expression) (b : Bool) (s : ErrState)
    (h : inferExpressionType tbl cd expr = .UNKNOWN) :
    computedTypeCheck tbl cd f expr b s = (b, s) := by
  unfold computedTypeCheck
  rw [h]
  simp

theorem validateComputedFeatureExpression_emits (tbl : SymbolTable) (cd : ClassDeclaration)
    (avail : List String) (f : Field) (s : ErrState) :
    Emits (fun _ => True) true s (validateComputedFeatureExpression tbl cd avail f s) := by
  cases hinit : f.initExpr with
  | none => simpa [validateComputedFeatureExpression, hinit] using Emits.same (fun _ => True) true s
  | some expr =>
    have h1 := (computedCardinalityCheck_emits cd f s).mono (fun _ _ => trivial)
    have h2 := ((computedRefsLoop_emits f.name cd.name avail (collectFieldReferences expr [])
      (computedCardinalityCheck cd f s).1 (computedCardinalityCheck cd f s).2)).mono (fun _ _ => trivial)
    have h3 := ((validateMemberAccessInExpression_emits tbl cd f.name expr
      (computedRefsLoop f.name cd.name avail (collectFieldReferences expr [])
        (computedCardinalityCheck cd f s).1 (computedCardinalityCheck cd f s).2).2)).mono
      (fun _ _ => trivial)
    have h4 := Emits.latch
      (computedRefsLoop f.name cd.name avail (collectFieldReferences expr [])
        (computedCardinalityCheck cd f s).1 (computedCardinalityCheck cd f s).2).1 h3
    have h5 := computedTypeCheck_emits tbl cd f expr
      ((computedRefsLoop f.name cd.name avail (collectFieldReferences expr [])
          (computedCardinalityCheck cd f s).1 (computedCardinalityCheck cd f s).2).1 &&
        (validateMemberAccessInExpression tbl cd f.name expr
          (computedRefsLoop f.name cd.name avail (collectFieldReferences expr [])
            (computedCardinalityCheck cd f s).1 (computedCardinalityCheck cd f s).2).2).1)
      (validateMemberAccessInExpression tbl cd f.name expr
        (computedRefsLoop f.name cd.name avail (collectFieldReferences expr [])
          (computedCardinalityCheck cd f s).1 (computedCardinalityCheck cd f s).2).2).2
    simpa [validateComputedFeatureExpression, hinit] using
      Emits.trans (Emits.trans (Emits.trans h1 h2) h4) h5

theorem computedFeaturesLoop_emits (tbl : SymbolTable) (cd : ClassDeclaration) (avail : List String) :
    ∀ (l : List Field) (b : Bool) (s : ErrState),
      Emits (fun _ => True) b s (computedFeaturesLoop tbl cd avail l b s) := by
  intro l
  induction l with
  | nil => intro b s; exact Emits.same _ b s
  | cons f rest ih =>
    intro b s
    by_cases h : f.isComputed = true
    · have h1 := Emits.latch b (validateComputedFeatureExpression_emits tbl cd avail f s)
      have h2 := ih (b && (validateComputedFeatureExpression tbl cd avail f s).1)
        (validateComputedFeatureExpression tbl cd avail f s).2
      simpa [computedFeaturesLoop, h] using Emits.trans h1 h2
    · have hf : f.isComputed = false := Bool.eq_false_iff.mpr h
      simpa [computedFeaturesLoop, hf] using ih b s

theorem validateComputedFeatures_emits (tbl : SymbolTable) (cd : ClassDeclaration) (s : ErrState) :
    Emits (fun _ => True) true s (validateComputedFeatures tbl cd s) := by
  unfold validateComputedFeatures
  exact computedFeaturesLoop_emits tbl cd _ cd.fields true s

theorem validateFieldUniqueness_emits (tbl : SymbolTable) (cd : ClassDeclaration) (s : ErrState) :
    Emits (fun _ => True) true s (validateFieldUniqueness tbl cd s) := by
  unfold validateFieldUniqueness
  exact fieldUniquenessLoop_emits cd.name (getAllFields tbl cd) [] true s

theorem validateInvariants_emits (tbl : SymbolTable) (cd : ClassDeclaration) (s : ErrState) :
    Emits (fun _ => True) true s (validateInvariants tbl cd s) := by
  unfold validateInvariants
  exact invariantsLoop_emits cd.name _ cd.invariants true s

theorem validateClassDeclaration_emits (tbl : SymbolTable) (cd : ClassDeclaration) (s : ErrState) :
    Emits (fun _ => True) true s (validateClassDeclaration tbl cd s) := by
  have h1 : Emits (fun _ => True) true s (if cd.hasExplicitBase then
      (if !typeExists tbl cd.baseType then
        (false, reportError s (.undefinedBaseType cd.name cd.baseType))
      else
        match lookupType tbl cd.baseType with
        | some (.classSym _) => (true, s)
        | _ => (false, reportError s (.invalidBaseTypeKind cd.name cd.baseType)))
    else (true, s)) := by
    split
    · split
      · exact Emits.report _ true s _ trivial
      · split
        · exact Emits.same _ true s
        · exact Emits.report _ true s _ trivial
    · exact Emits.same _ true s
  refine Emits.trans h1 ?_
  refine Emits.trans (fieldTypesLoop_emits tbl cd.name cd.fields _ _) ?_
  refine Emits.trans (Emits.latch _ (validateFieldUniqueness_emits tbl cd _)) ?_
  refine Emits.trans (Emits.latch _ (validateInvariants_emits tbl cd _)) ?_
  exact Emits.latch _ (validateComputedFeatures_emits tbl cd _)

theorem validateClassesPass_emits (tbl : SymbolTable) :
    ∀ (l : List Declaration) (b : Bool) (s : ErrState),
      Emits (fun _ => True) b s (validateClassesPass tbl l b s) := by
  intro l
  induction l with
  | nil => intro b s; exact Emits.same _ b s
  | cons decl rest ih =>
    intro b s
    cases decl with
    | enumDecl e => simpa [validateClassesPass] using ih b s
    | classDecl cd =>
      have h1 := Emits.latch b (validateClassDeclaration_emits tbl cd s)
      have h2 := ih (b && (validateClassDeclaration tbl cd s).1) (validateClassDeclaration tbl cd s).2
      simpa [validateClassesPass] using Emits.trans h1 h2

theorem cyclesPass_emits (tbl : SymbolTable) :
    ∀ (l : List Declaration) (b : Bool) (s : ErrState),
      Emits (fun _ => True) b s (cyclesPass tbl l b s) := by
  intro l
  induction l with
  | nil => intro b s; exact Emits.same _ b s
  | cons decl rest ih =>
    intro b s
    cases decl with
    | enumDecl e => simpa [cyclesPass] using ih b s
    | classDecl cd =>
      by_cases hb : cd.hasExplicitBase = true
      · by_cases hc : hasInheritanceCycle tbl cd.baseType (setInsert [] cd.name) = true
        · have h1 : Emits (fun _ => True) b s (false, reportError s (.circularInheritance cd.name)) :=
            Emits.report _ b s _ trivial
          have h2 := ih false (reportError s (.circularInheritance cd.name))
          simpa [cyclesPass, hb, hc] using Emits.trans h1 h2
        · have hcf : hasInheritanceCycle tbl cd.baseType (setInsert [] cd.name) = false :=
            Bool.eq_false_iff.mpr hc
          simpa [cyclesPass, hb, hcf] using ih b s
      · have hbf : cd.hasExplicitBase = false := Bool.eq_false_iff.mpr hb
        simpa [cyclesPass, hbf] using ih b s

theorem validateTypeReferences_emits (tbl : SymbolTable) (s : ErrState) (decls : List Declaration) :
    Emits (fun _ => True) true s (validateTypeReferences tbl s decls) := by
  unfold validateTypeReferences
  exact Emits.trans (validateClassesPass_emits tbl decls true s)
    (cyclesPass_emits tbl decls _ _)

theorem buildSymbolTableLoop_emits :
    ∀ (decls : List Declaration) (tbl : SymbolTable) (b : Bool) (s : ErrState),
      ∃ d : List Diag,
        (buildSymbolTableLoop decls tbl b s).2.2.diags = s.diags ++ d ∧
        (buildSymbolTableLoop decls tbl b s).2.2.hasErrors = (s.hasErrors || !d.isEmpty) ∧
        (buildSymbolTableLoop decls tbl b s).1 = (b && d.isEmpty) := by
  intro decls
  induction decls with
  | nil => intro tbl b s; exact ⟨[], by simp [buildSymbolTableLoop], by simp [buildSymbolTableLoop], by simp [buildSymbolTableLoop]⟩
  | cons decl rest ih =>
    intro tbl b s
    have step : ∀ (nm : String) (tbl2 : SymbolTable)
        (hrec : buildSymbolTableLoop (decl :: rest) tbl b s =
          if typeExists tbl nm = true then
            buildSymbolTableLoop rest tbl false (reportError s (.duplicateTypeName nm))
          else buildSymbolTableLoop rest tbl2 b s),
        ∃ d : List Diag,
          (buildSymbolTableLoop (decl :: rest) tbl b s).2.2.diags = s.diags ++ d ∧
          (buildSymbolTableLoop (decl :: rest) tbl b s).2.2.hasErrors = (s.hasErrors || !d.isEmpty) ∧
          (buildSymbolTableLoop (decl :: rest) tbl b s).1 = (b && d.isEmpty) := by
      intro nm tbl2 hrec
      rw [hrec]
      by_cases h : typeExists tbl nm = true
      · rw [if_pos h]
        obtain ⟨d, hd, he, hb⟩ := ih tbl false (reportError s (.duplicateTypeName nm))
        refine ⟨Diag.duplicateTypeName nm :: d, ?_, ?_, ?_⟩
        · rw [hd]; simp [reportError]
        · rw [he]; simp [reportError, List.isEmpty]
        · rw [hb]; simp [List.isEmpty]
      · rw [if_neg h]
        exact ih tbl2 b s
    cases decl with
    | enumDecl e => exact step e.name (tableInsert tbl e.name (.enumSym e)) (by simp [buildSymbolTableLoop])
    | classDecl c => exact step c.name (tableInsert tbl c.name (.classSym c)) (by simp [buildSymbolTableLoop])

theorem emptyErrState_diags : emptyErrState.diags = [] := rfl

theorem emptyErrState_hasErrors : emptyErrState.hasErrors = false := rfl

/-- C5: Analyze returns true exactly when zero errors were recorded across
the whole pipeline, and the final verdict is the negation of the error
flag; every early false return coincides with at least one recorded
diagnostic. -/
theorem claim5_success_iff_no_diagnostics (ast : AST) :
    ((analyze ast).1 = true ↔ (analyze ast).2.2.diags = []) ∧
    (analyze ast).1 = !(analyze ast).2.2.hasErrors := by
  obtain ⟨dB, hdB, heB, hbB⟩ :=
    buildSymbolTableLoop_emits ast.declarations (registerPrimitiveTypes []) true emptyErrState
  simp only [emptyErrState_diags, emptyErrState_hasErrors, List.nil_append, Bool.false_or,
    Bool.true_and] at hdB heB hbB
  by_cases hB : (buildSymbolTableLoop ast.declarations (registerPrimitiveTypes []) true emptyErrState).1 = true
  · have hBe : dB.isEmpty = true := by rw [← hbB]; exact hB
    have hBnil : dB = [] := by
      cases dB with
      | nil => rfl
      | cons x xs => simp [List.isEmpty] at hBe
    subst hBnil
    simp only [List.append_nil, List.isEmpty, Bool.not_true] at hdB heB
    obtain ⟨dV, hdV, heV, hbV, -⟩ :=
      validateTypeReferences_emits
        (buildSymbolTableLoop ast.declarations (registerPrimitiveTypes []) true emptyErrState).2.1
        (buildSymbolTableLoop ast.declarations (registerPrimitiveTypes []) true emptyErrState).2.2
        ast.declarations
    rw [hdB] at hdV
    rw [heB] at heV
    simp only [List.nil_append, Bool.false_or, Bool.true_and] at hdV heV hbV
    by_cases hV : (validateTypeReferences
        (buildSymbolTableLoop ast.declarations (registerPrimitiveTypes []) true emptyErrState).2.1
        (buildSymbolTableLoop ast.declarations (registerPrimitiveTypes []) true emptyErrState).2.2
        ast.declarations).1 = true
    · have hA : analyze ast =
          (!(validateTypeReferences
              (buildSymbolTableLoop ast.declarations (registerPrimitiveTypes []) true emptyErrState).2.1
              (buildSymbolTableLoop ast.declarations (registerPrimitiveTypes []) true emptyErrState).2.2
              ast.declarations).2.hasErrors,
            (buildSymbolTableLoop ast.declarations (registerPrimitiveTypes []) true emptyErrState).2.1,
            (validateTypeReferences
              (buildSymbolTableLoop ast.declarations (registerPrimitiveTypes []) true emptyErrState).2.1
              (buildSymbolTableLoop ast.declarations (registerPrimitiveTypes []) true emptyErrState).2.2
              ast.declarations).2) := by
        simp [analyze, buildSymbolTable, hB, hV]
      have hVe : dV.isEmpty = true := by rw [← hbV]; exact hV
      have hVnil : dV = [] := by
        cases dV with
        | nil => rfl
        | cons x xs => simp [List.isEmpty] at hVe
      subst hVnil
      simp only [List.isEmpty, Bool.not_true] at heV
      rw [hA]
      simp [hdV, heV]
    · have hVf : (validateTypeReferences
          (buildSymbolTableLoop ast.declarations (registerPrimitiveTypes []) true emptyErrState).2.1
          (buildSymbolTableLoop ast.declarations (registerPrimitiveTypes []) true emptyErrState).2.2
          ast.declarations).1 = false := Bool.eq_false_iff.mpr hV
      have hA : analyze ast =
          (false,
            (buildSymbolTableLoop ast.declarations (registerPrimitiveTypes []) true emptyErrState).2.1,
            (validateTypeReferences
              (buildSymbolTableLoop ast.declarations (registerPrimitiveTypes []) true emptyErrState).2.1
              (buildSymbolTableLoop ast.declarations (registerPrimitiveTypes []) true emptyErrState).2.2
              ast.declarations).2) := by
        simp [analyze, buildSymbolTable, hB, hVf]
      have hVe : dV.isEmpty = false := by rw [← hbV]; exact hVf
      have hne : (validateTypeReferences
          (buildSymbolTableLoop ast.declarations (registerPrimitiveTypes []) true emptyErrState).2.1
          (buildSymbolTableLoop ast.declarations (registerPrimitiveTypes []) true emptyErrState).2.2
          ast.declarations).2.diags ≠ [] := by
        rw [hdV]
        intro hcon
        rw [hcon] at hVe
        simp [List.isEmpty] at hVe
      rw [hA]
      constructor
      · simp [hne]
      · rw [heV, hVe]
        rfl
  · have hBf : (buildSymbolTableLoop ast.declarations (registerPrimitiveTypes []) true emptyErrState).1 = false :=
      Bool.eq_false_iff.mpr hB
    have hA : analyze ast =
        (false,
          (buildSymbolTableLoop ast.declarations (registerPrimitiveTypes []) true emptyErrState).2.1,
          (buildSymbolTableLoop ast.declarations (registerPrimitiveTypes []) true emptyErrState).2.2) := by
      simp [analyze, buildSymbolTable, hBf]
    rw [hA]
    have hBe : dB.isEmpty = false := by rw [← hbB]; exact hBf
    have hne : (buildSymbolTableLoop ast.declarations (registerPrimitiveTypes []) true emptyErrState).2.2.diags ≠ [] := by
      rw [hdB]
      intro hcon
      rw [hcon] at hBe
      simp [List.isEmpty] at hBe
    constructor
    · simp [hne]
    · rw [heB, hBe]
      rfl

/-- Spec-side relation for claim C1, written from the amended claim text:
on the mapped expression types, exact match; Int against Real; Real
against Timestamp or Timespan in either direction. Timestamp against
Timespan is absent. -/
def amendedCompatible (e f : ExprType) : Bool :=
  e == f || (e == .INT && f == .REAL) ||
    (e == .REAL && (f == .TIMESTAMP || f == .TIMESPAN)) ||
    ((e == .TIMESTAMP || e == .TIMESPAN) && f == .REAL)

/-- C1 counterexample: the claim calls every pair drawn from Real,
Timestamp, Timespan compatible in either direction, but IsTypeCompatible
rejects inferred Timestamp against declared Timespan and inferred
Timespan against declared Timestamp; it also rejects the exact primitive
pair Date against Date, because the declared side is mapped through
PrimitiveNameToExpressionType which sends Date to UNKNOWN. -/
theorem claim1_counterexample :
    isTypeCompatible .TIMESTAMP (.primitive .TIMESPAN) = false ∧
    isTypeCompatible .TIMESPAN (.primitive .TIMESTAMP) = false ∧
    isTypeCompatible .DATE (.primitive .DATE) = false := by
  exact ⟨rfl, rfl, rfl⟩

/-- C1 (amended): for a primitive declared type, IsTypeCompatible accepts
exactly: an exact match of the mapped types, inferred Int against declared
Real, and Real paired with Timestamp or Timespan in either direction,
where the declared primitive is mapped through
PrimitiveNameToExpressionType of its name (so declared Date maps to
UNKNOWN); inferred Timestamp against declared Timespan, and every other
pair, is incompatible. -/
theorem claim1_compat_characterization :
    ∀ (et : ExprType) (p : PrimitiveType),
      isTypeCompatible et (.primitive p) =
        amendedCompatible et (primitiveNameToExpressionType (typeToString p)) := by
  decide

/-- Spec-side mapping for claim C4: the matching result type the claim
expects for each primitive. -/
def matchingResultType : PrimitiveType → ExprType
  | .STRING => .STRING
  | .INT => .INT
  | .REAL => .REAL
  | .BOOL => .BOOL
  | .TIMESTAMP => .TIMESTAMP
  | .TIMESPAN => .TIMESPAN
  | .DATE => .DATE
  | .GUID => .GUID

/-- The class and table for the C4 counterexample: one class D with one
field d of primitive type Date, registered after the primitives. -/
def dateClassDecl : ClassDeclaration := ⟨"D", "", [⟨.primitive .DATE, "d", [], false, none⟩], []⟩

def dateTbl : SymbolTable := primTbl ++ [("D", .classSym dateClassDecl)]

/-- C4 counterexample: inferring a reference to a field declared with
primitive type Date yields UNKNOWN, not the matching result type DATE the
claim demands, because PrimitiveNameToExpressionType has no Date case. -/
theorem claim4_counterexample :
    inferExpressionType dateTbl dateClassDecl (.fieldRef "d") = .UNKNOWN ∧
    matchingResultType .DATE = .DATE ∧ ExprType.UNKNOWN ≠ ExprType.DATE := by
  exact ⟨rfl, rfl, by decide⟩

/-- C4 (amended): a field reference whose field resolves to a primitive
symbol infers to PrimitiveNameToExpressionType of that symbol name, and
that mapping returns the matching result type for every primitive except
Date, which it sends to UNKNOWN. -/
theorem claim4_field_reference_inference :
    (∀ (tbl : SymbolTable) (cd : ClassDeclaration) (fieldName n : String),
        getFieldType tbl cd fieldName = some (.primitive n) →
        inferExpressionType tbl cd (.fieldRef fieldName) = primitiveNameToExpressionType n) ∧
    (∀ p : PrimitiveType, p ≠ .DATE →
        primitiveNameToExpressionType (typeToString p) = matchingResultType p) ∧
    primitiveNameToExpressionType (typeToString .DATE) = .UNKNOWN := by
  refine ⟨?_, by decide, rfl⟩
  intro tbl cd fieldName n h
  simp [inferExpressionType, h]

/-- Spec-side predicate for claim C6: the comparison and logical operators
the claim lists. -/
def comparisonOrLogical (op : BinOp) : Bool :=
  op == .LT || op == .GT || op == .LE || op == .GE || op == .EQ || op == .NE ||
    op == .AND || op == .OR

/-- Spec-side function for claim C6, written from the claim text: Bool for
every comparison or logical operator; for the arithmetic operators,
Unknown when either operand type is Unknown, Real when either is Real,
Timestamp or Timespan, Int when both are Int, String when the operator is
ADD and both are String, and Unknown otherwise. -/
def binaryInferSpec (op : BinOp) (leftType rightType : ExprType) : ExprType :=
  if comparisonOrLogical op then .BOOL
  else if leftType == .UNKNOWN || rightType == .UNKNOWN then .UNKNOWN
  else if leftType == .REAL || rightType == .REAL || leftType == .TIMESTAMP || rightType == .TIMESTAMP
      || leftType == .TIMESPAN || rightType == .TIMESPAN then .REAL
  else if leftType == .INT && rightType == .INT then .INT
  else if op == .ADD && leftType == .STRING && rightType == .STRING then .STRING
  else .UNKNOWN

/-- C6: on every binary expression, type inference agrees with the
claimed operator table applied to the inferred operand types. -/
theorem claim6_binary_inference (tbl : SymbolTable) (cd : ClassDeclaration)
    (l : Expression) (op : BinOp) (r : Expression) :
    inferExpressionType tbl cd (.binary l op r) =
      binaryInferSpec op (inferExpressionType tbl cd l) (inferExpressionType tbl cd r) := by
  have aux : ∀ (o : BinOp) (lt rt : ExprType),
      (if o == BinOp.LT || o == BinOp.GT || o == BinOp.LE || o == BinOp.GE || o == BinOp.EQ
          || o == BinOp.NE || o == BinOp.AND || o == BinOp.OR then ExprType.BOOL
       else if lt == ExprType.UNKNOWN || rt == ExprType.UNKNOWN then ExprType.UNKNOWN
       else if lt == ExprType.REAL || rt == ExprType.REAL || lt == ExprType.TIMESTAMP
          || rt == ExprType.TIMESTAMP || lt == ExprType.TIMESPAN || rt == ExprType.TIMESPAN then ExprType.REAL
       else if lt == ExprType.INT && rt == ExprType.INT then ExprType.INT
       else if lt == ExprType.STRING && rt == ExprType.STRING && o == BinOp.ADD then ExprType.STRING
       else ExprType.UNKNOWN) = binaryInferSpec o lt rt := by
    decide
  simp only [inferExpressionType]
  exact aux op (inferExpressionType tbl cd l) (inferExpressionType tbl cd r)

/-- The C2 counterexample program: one class C whose computed field bad
has array cardinality and an initializer referencing an undefined field. -/
def claim2Ast : AST := ⟨[.classDecl ⟨"C", "",
  [⟨.primitive .INT, "bad", [.cardinality 0 (-1)], false, some (.fieldRef "missing")⟩], []⟩]⟩

/-- C2 counterexample: on a computed field with array cardinality the
analyzer emits ComputedFeatureArrayNotAllowed and then still emits the
undefined-field-reference diagnostic for the same field, so the remaining
checks are not skipped as the claim states. -/
theorem claim2_counterexample :
    (analyze claim2Ast).2.2.diags =
      [.computedArrayNotAllowed "bad" "C", .computedUndefinedFieldRef "bad" "C" "missing"] ∧
    Diag.computedUndefinedFieldRef "bad" "C" "missing" ∈ (analyze claim2Ast).2.2.diags := by
  exact ⟨rfl, by decide⟩

/-- The C3 counterexample program: a duplicate class name A, where the
second A also inherits from the undefined type Nope. -/
def claim3Ast : AST := ⟨[.classDecl ⟨"A", "", [], []⟩, .classDecl ⟨"A", "Nope", [], []⟩]⟩

/-- C3 counterexample: the duplicate type name makes BuildSymbolTable
fail, Analyze returns before the per-class validators, and the
undefined-base diagnostic those validators would emit for the base Nope
never appears. -/
theorem claim3_counterexample :
    (analyze claim3Ast).1 = false ∧
    (analyze claim3Ast).2.2.diags = [.duplicateTypeName "A"] ∧
    Diag.undefinedBaseType "A" "Nope" ∉ (analyze claim3Ast).2.2.diags := by
  exact ⟨rfl, rfl, by decide⟩

/-- C3 (amended): analysis is non-fail-fast within each stage but not
across stages: whenever BuildSymbolTable returns false (it recorded a
DuplicateTypeName), Analyze returns false at once with exactly the
symbol-table-stage state, so no per-class validator runs in that call;
within the stage, the loop does continue, as the two separate duplicates
of the concrete list show. -/
theorem claim3_duplicate_aborts_before_validators :
    (∀ ast : AST,
        (buildSymbolTable (registerPrimitiveTypes []) emptyErrState ast.declarations).1 = false →
        analyze ast = (false,
          (buildSymbolTable (registerPrimitiveTypes []) emptyErrState ast.declarations).2.1,
          (buildSymbolTable (registerPrimitiveTypes []) emptyErrState ast.declarations).2.2)) ∧
    (buildSymbolTable primTbl emptyErrState
        [.enumDecl ⟨"E", []⟩, .enumDecl ⟨"E", []⟩, .classDecl ⟨"Int", "", [], []⟩]).2.2.diags =
      [.duplicateTypeName "E", .duplicateTypeName "Int"] := by
  constructor
  · intro ast h
    simp [analyze, h]
  · rfl

theorem computedRefsLoop_reports (fn cn : String) (avail : List String) :
    ∀ (l : List String) (b : Bool) (s : ErrState) (refName : String),
      refName ∈ l → refName ∉ avail →
      Diag.computedUndefinedFieldRef fn cn refName ∈ (computedRefsLoop fn cn avail l b s).2.diags := by
  intro l
  induction l with
  | nil => intro b s refName hmem; cases hmem
  | cons x rest ih =>
    intro b s refName hmem hmiss
    rcases List.mem_cons.mp hmem with rfl | hrest
    · have hx : refName ∉ avail := hmiss
      have hstep : computedRefsLoop fn cn avail (refName :: rest) b s =
          computedRefsLoop fn cn avail rest false
            (reportError s (.computedUndefinedFieldRef fn cn refName)) := by
        simp [computedRefsLoop, hx]
      rw [hstep]
      have hin : Diag.computedUndefinedFieldRef fn cn refName ∈
          (reportError s (.computedUndefinedFieldRef fn cn refName)).diags := by
        simp [reportError]
      exact (computedRefsLoop_emits fn cn avail rest false _).mem_diags hin
    · by_cases hx : x ∈ avail
      · have hstep : computedRefsLoop fn cn avail (x :: rest) b s =
            computedRefsLoop fn cn avail rest b s := by
          simp [computedRefsLoop, hx]
        rw [hstep]
        exact ih b s refName hrest hmiss
      · have hstep : computedRefsLoop fn cn avail (x :: rest) b s =
            computedRefsLoop fn cn avail rest false
              (reportError s (.computedUndefinedFieldRef fn cn x)) := by
          simp [computedRefsLoop, hx]
        rw [hstep]
        exact ih false _ refName hrest hmiss

/-- C2 (amended): on a computed field whose cardinality modifier denotes
an array, the analyzer emits ComputedFeatureArrayNotAllowed but does not
skip the remaining checks for the field: an undefined reference in the
initializer is still reported alongside it. -/
theorem claim2_array_error_and_checks_continue (tbl : SymbolTable) (cd : ClassDeclaration)
    (avail : List String) (f : Field) (s : ErrState) (expr : Expression) (mn mx : Int)
    (refName : String)
    (hinit : f.initExpr = some expr)
    (hcard : f.getCardinalityModifier = some (mn, mx))
    (harr : cardinalityIsArray mx = true)
    (href : refName ∈ collectFieldReferences expr [])
    (hmiss : refName ∉ avail) :
    Diag.computedArrayNotAllowed f.name cd.name ∈
      (validateComputedFeatureExpression tbl cd avail f s).2.diags ∧
    Diag.computedUndefinedFieldRef f.name cd.name refName ∈
      (validateComputedFeatureExpression tbl cd avail f s).2.diags := by
  have hr1 : computedCardinalityCheck cd f s =
      (false, reportError s (.computedArrayNotAllowed f.name cd.name)) := by
    simp [computedCardinalityCheck, hcard, harr]
  simp only [validateComputedFeatureExpression, hinit, hr1]
  constructor
  · have h0 : Diag.computedArrayNotAllowed f.name cd.name ∈
        (reportError s (.computedArrayNotAllowed f.name cd.name)).diags := by
      simp [reportError]
    have h1 := (computedRefsLoop_emits f.name cd.name avail (collectFieldReferences expr [])
      false (reportError s (.computedArrayNotAllowed f.name cd.name))).mem_diags h0
    have h2 := (validateMemberAccessInExpression_emits tbl cd f.name expr
      (computedRefsLoop f.name cd.name avail (collectFieldReferences expr [])
        false (reportError s (.computedArrayNotAllowed f.name cd.name))).2).mem_diags h1
    exact (computedTypeCheck_emits tbl cd f expr _ _).mem_diags h2
  · have h1 := computedRefsLoop_reports f.name cd.name avail (collectFieldReferences expr [])
      false (reportError s (.computedArrayNotAllowed f.name cd.name)) refName href hmiss
    have h2 := (validateMemberAccessInExpression_emits tbl cd f.name expr
      (computedRefsLoop f.name cd.name avail (collectFieldReferences expr [])
        false (reportError s (.computedArrayNotAllowed f.name cd.name))).2).mem_diags h1
    exact (computedTypeCheck_emits tbl cd f expr _ _).mem_diags h2

/-- C2 witness: the amended theorem applied to the counterexample field. -/
theorem claim2_array_error_and_checks_continue_witness :
    Diag.computedArrayNotAllowed "bad" "C" ∈
      (validateComputedFeatureExpression primTbl ⟨"C", "", [], []⟩ ["other"]
        ⟨.primitive .INT, "bad", [.cardinality 0 (-1)], false, some (.fieldRef "missing")⟩
        emptyErrState).2.diags ∧
    Diag.computedUndefinedFieldRef "bad" "C" "missing" ∈
      (validateComputedFeatureExpression primTbl ⟨"C", "", [], []⟩ ["other"]
        ⟨.primitive .INT, "bad", [.cardinality 0 (-1)], false, some (.fieldRef "missing")⟩
        emptyErrState).2.diags :=
  claim2_array_error_and_checks_continue primTbl ⟨"C", "", [], []⟩ ["other"]
    ⟨.primitive .INT, "bad", [.cardinality 0 (-1)], false, some (.fieldRef "missing")⟩
    emptyErrState (.fieldRef "missing") 0 (-1) "missing"
    rfl rfl rfl (by decide) (by decide)

/-- C10: when the inferred type of a computed initializer is UNKNOWN the
type-compatibility check is skipped, so the validation of that field adds
no ComputedFeatureTypeMismatch diagnostic: any mismatch diagnostic in the
outgoing state was already in the incoming one. -/
theorem claim10_unknown_inference_skips_type_check (tbl : SymbolTable) (cd : ClassDeclaration)
    (avail : List String) (f : Field) (s : ErrState) (expr : Expression)
    (hinit : f.initExpr = some expr)
    (hunk : inferExpressionType tbl cd expr = .UNKNOWN) :
    ∀ a b c d : String,
      Diag.computedTypeMismatch a b c d ∈ (validateComputedFeatureExpression tbl cd avail f s).2.diags →
      Diag.computedTypeMismatch a b c d ∈ s.diags := by
  intro a b c d hmem
  rw [validateComputedFeatureExpression] at hmem
  rw [hinit] at hmem
  simp only at hmem
  rw [computedTypeCheck_unknown tbl cd f expr _ _ hunk] at hmem
  have hE : Emits NoMM true s
      ((computedRefsLoop f.name cd.name avail (collectFieldReferences expr [])
          (computedCardinalityCheck cd f s).1 (computedCardinalityCheck cd f s).2).1 &&
        (validateMemberAccessInExpression tbl cd f.name expr
          (computedRefsLoop f.name cd.name avail (collectFieldReferences expr [])
            (computedCardinalityCheck cd f s).1 (computedCardinalityCheck cd f s).2).2).1,
        (validateMemberAccessInExpression tbl cd f.name expr
          (computedRefsLoop f.name cd.name avail (collectFieldReferences expr [])
            (computedCardinalityCheck cd f s).1 (computedCardinalityCheck cd f s).2).2).2) := by
    refine Emits.trans (Emits.trans (computedCardinalityCheck_emits cd f s)
      (computedRefsLoop_emits f.name cd.name avail (collectFieldReferences expr [])
        (computedCardinalityCheck cd f s).1 (computedCardinalityCheck cd f s).2)) ?_
    exact Emits.latch _ (validateMemberAccessInExpression_emits tbl cd f.name expr _)
  obtain ⟨dd, hd, -, -, hp⟩ := hE
  rw [hd] at hmem
  rcases List.mem_append.mp hmem with h | h
  · exact h
  · have := hp _ h
    simp [NoMM, Diag.isMismatchDiag] at this

/-- C10 witness: the theorem applied to a computed field whose
initializer is a function call (inferred UNKNOWN) and whose declared type
is String, on a state already holding one mismatch diagnostic. -/
theorem claim10_unknown_inference_skips_type_check_witness :
    Diag.computedTypeMismatch "p" "q" "r" "t" ∈
      (ErrState.mk true [Diag.computedTypeMismatch "p" "q" "r" "t"]).diags :=
  claim10_unknown_inference_skips_type_check primTbl ⟨"F", "", [], []⟩ []
    ⟨.primitive .STRING, "x", [.cardinality 1 1], false, some (.functionCall "f" [])⟩
    ⟨true, [Diag.computedTypeMismatch "p" "q" "r" "t"]⟩ (.functionCall "f" []) rfl rfl
    "p" "q" "r" "t" (by decide)

/-- The keys of the symbol table. -/
def keysOf (tbl : SymbolTable) : List String := tbl.map Prod.fst

/-- The names of the class declarations stored as values of the table. -/
def classValueNames (tbl : SymbolTable) : List String :=
  tbl.filterMap (fun p => match p.2 with | .classSym d => some d.name | _ => none)

theorem lookup_mem_keys {tbl : SymbolTable} {c : String} {sym : TypeSymbol}
    (h : lookupType tbl c = some sym) : c ∈ keysOf tbl := by
  unfold lookupType at h
  cases hf : tbl.find? (fun p => p.1 == c) with
  | none => rw [hf] at h; cases h
  | some p =>
    have hp := List.find?_some hf
    have hmem := List.mem_of_find?_eq_some hf
    have hpc : p.1 = c := by simpa using hp
    rw [← hpc]
    exact List.mem_map_of_mem Prod.fst hmem

theorem lookup_classSym_mem_valueNames {tbl : SymbolTable} {c : String} {d : ClassDeclaration}
    (h : lookupType tbl c = some (.classSym d)) : d.name ∈ classValueNames tbl := by
  unfold lookupType at h
  cases hf : tbl.find? (fun p => p.1 == c) with
  | none => rw [hf] at h; cases h
  | some p =>
    rw [hf] at h
    have hmem := List.mem_of_find?_eq_some hf
    have h2 : p.2 = TypeSymbol.classSym d := by simpa using h
    refine List.mem_filterMap.mpr ⟨p, hmem, ?_⟩
    rw [h2]

theorem length_filter_le_filter (p q : String → Bool) (h : ∀ x, q x = true → p x = true) :
    ∀ l : List String, (l.filter q).length ≤ (l.filter p).length := by
  intro l
  induction l with
  | nil => simp
  | cons a t ih =>
    rw [List.filter_cons, List.filter_cons]
    by_cases ha : q a = true
    · rw [if_pos ha, if_pos (h a ha), List.length_cons, List.length_cons]
      omega
    · rw [if_neg ha]
      by_cases hpa : p a = true
      · rw [if_pos hpa, List.length_cons]
        omega
      · rw [if_neg hpa]
        exact ih

theorem length_filter_lt_filter (p q : String → Bool) (h : ∀ x, q x = true → p x = true)
    (c : String) (hqc : q c = false) (hpc : p c = true) :
    ∀ l : List String, c ∈ l → (l.filter q).length < (l.filter p).length := by
  intro l
  induction l with
  | nil => intro hc; cases hc
  | cons a t ih =>
    intro hc
    rw [List.filter_cons, List.filter_cons]
    rcases List.mem_cons.mp hc with rfl | hct
    · have hnq : ¬ (q c = true) := by rw [hqc]; exact Bool.false_ne_true
      rw [if_neg hnq, if_pos hpc, List.length_cons]
      have := length_filter_le_filter p q h t
      omega
    · by_cases hqa : q a = true
      · rw [if_pos hqa, if_pos (h a hqa), List.length_cons, List.length_cons]
        have := ih hct
        omega
      · rw [if_neg hqa]
        by_cases hpa : p a = true
        · rw [if_pos hpa, List.length_cons]
          have := ih hct
          omega
        · rw [if_neg hpa]
          exact ih hct

theorem contains_setInsert_false {v : List String} {c x : String}
    (h : (setInsert v c).contains x = false) : v.contains x = false := by
  have h2 : x ∉ setInsert v c := by
    intro hmm
    rw [contains_true_of_mem hmm] at h
    cases h
  have h3 : x ∉ v := fun hmm => h2 ((mem_setInsert c x v).mpr (Or.inr hmm))
  exact contains_false_of_not_mem h3

theorem hasInheritanceCycleFuel_isSome (tbl : SymbolTable) :
    ∀ (fuel : Nat) (className : String) (visited : List String),
      ((keysOf tbl).filter (fun k => !visited.contains k)).length < fuel →
      (hasInheritanceCycleFuel tbl fuel className visited).isSome = true := by
  intro fuel
  induction fuel with
  | zero => intro c v h; omega
  | succ n ih =>
    intro c v h
    by_cases hv : c ∈ v
    · simp [hasInheritanceCycleFuel, hv]
    · have hvf : v.contains c = false := contains_false_of_not_mem hv
      cases hl : lookupType tbl c with
      | none => simp [hasInheritanceCycleFuel, hv, hl]
      | some sym =>
        cases sym with
        | primitive nm => simp [hasInheritanceCycleFuel, hv, hl]
        | enumSym d => simp [hasInheritanceCycleFuel, hv, hl]
        | classSym cd =>
          by_cases hb : cd.hasExplicitBase = true
          · have hck : c ∈ keysOf tbl := lookup_mem_keys hl
            have hdec : ((keysOf tbl).filter (fun k => !(setInsert v c).contains k)).length <
                ((keysOf tbl).filter (fun k => !v.contains k)).length := by
              refine length_filter_lt_filter _ _ ?_ c ?_ ?_ (keysOf tbl) hck
              · intro x hx
                have hxf : (setInsert v c).contains x = false := by
                  cases hcc : (setInsert v c).contains x
                  · rfl
                  · rw [hcc] at hx
                    exact absurd hx (by decide)
                rw [contains_setInsert_false hxf]
                rfl
              · have hcin : (setInsert v c).contains c = true :=
                  contains_true_of_mem ((mem_setInsert c c v).mpr (Or.inl rfl))
                rw [hcin]
                rfl
              · rw [hvf]
                rfl
            have hrec := ih cd.baseType (setInsert v c) (by omega)
            simp [hasInheritanceCycleFuel, hv, hl, hb, hrec]
          · have hbf : cd.hasExplicitBase = false := Bool.eq_false_iff.mpr hb
            simp [hasInheritanceCycleFuel, hv, hl, hbf]

theorem getAllFieldsHelperFuel_isSome (tbl : SymbolTable) :
    ∀ (fuel : Nat) (cd : ClassDeclaration) (visited : List String),
      ((classValueNames tbl).filter (fun k => !(setInsert visited cd.name).contains k)).length + 1 < fuel →
      (getAllFieldsHelperFuel tbl fuel cd visited).isSome = true := by
  intro fuel
  induction fuel with
  | zero => intro cd v h; omega
  | succ n ih =>
    intro cd v h
    by_cases hv : cd.name ∈ v
    · simp [getAllFieldsHelperFuel, hv]
    · by_cases hb : cd.hasExplicitBase = true
      · cases hl : lookupType tbl cd.baseType with
        | none => simp [getAllFieldsHelperFuel, hv, hb, hl]
        | some sym =>
          cases sym with
          | primitive nm => simp [getAllFieldsHelperFuel, hv, hb, hl]
          | enumSym d => simp [getAllFieldsHelperFuel, hv, hb, hl]
          | classSym bd =>
            by_cases hbv : bd.name ∈ setInsert v cd.name
            · cases n with
              | zero => omega
              | succ n2 =>
                simp [getAllFieldsHelperFuel, hv, hb, hl, hbv]
            · have hbk : bd.name ∈ classValueNames tbl := lookup_classSym_mem_valueNames hl
              have hdec : ((classValueNames tbl).filter
                    (fun k => !(setInsert (setInsert v cd.name) bd.name).contains k)).length <
                  ((classValueNames tbl).filter (fun k => !(setInsert v cd.name).contains k)).length := by
                refine length_filter_lt_filter _ _ ?_ bd.name ?_ ?_ (classValueNames tbl) hbk
                · intro x hx
                  have hxf : (setInsert (setInsert v cd.name) bd.name).contains x = false := by
                    cases hcc : (setInsert (setInsert v cd.name) bd.name).contains x
                    · rfl
                    · rw [hcc] at hx
                      exact absurd hx (by decide)
                  rw [contains_setInsert_false hxf]
                  rfl
                · have hcin : (setInsert (setInsert v cd.name) bd.name).contains bd.name = true :=
                    contains_true_of_mem ((mem_setInsert bd.name bd.name (setInsert v cd.name)).mpr (Or.inl rfl))
                  rw [hcin]
                  rfl
                · rw [contains_false_of_not_mem hbv]
                  rfl
              have hrec := ih bd (setInsert v cd.name) (by omega)
              obtain ⟨bf, hbf⟩ := Option.isSome_iff_exists.mp hrec
              simp [getAllFieldsHelperFuel, hv, hb, hl, hbf]
      · have hbf : cd.hasExplicitBase = false := Bool.eq_false_iff.mpr hb
        simp [getAllFieldsHelperFuel, hv, hbf]

theorem getAllInvariantsHelperFuel_isSome (tbl : SymbolTable) :
    ∀ (fuel : Nat) (cd : ClassDeclaration) (visited : List String),
      ((classValueNames tbl).filter (fun k => !(setInsert visited cd.name).contains k)).length + 1 < fuel →
      (getAllInvariantsHelperFuel tbl fuel cd visited).isSome = true := by
  intro fuel
  induction fuel with
  | zero => intro cd v h; omega
  | succ n ih =>
    intro cd v h
    by_cases hv : cd.name ∈ v
    · simp [getAllInvariantsHelperFuel, hv]
    · by_cases hb : cd.hasExplicitBase = true
      · cases hl : lookupType tbl cd.baseType with
        | none => simp [getAllInvariantsHelperFuel, hv, hb, hl]
        | some sym =>
          cases sym with
          | primitive nm => simp [getAllInvariantsHelperFuel, hv, hb, hl]
          | enumSym d => simp [getAllInvariantsHelperFuel, hv, hb, hl]
          | classSym bd =>
            by_cases hbv : bd.name ∈ setInsert v cd.name
            · cases n with
              | zero => omega
              | succ n2 =>
                simp [getAllInvariantsHelperFuel, hv, hb, hl, hbv]
            · have hbk : bd.name ∈ classValueNames tbl := lookup_classSym_mem_valueNames hl
              have hdec : ((classValueNames tbl).filter
                    (fun k => !(setInsert (setInsert v cd.name) bd.name).contains k)).length <
                  ((classValueNames tbl).filter (fun k => !(setInsert v cd.name).contains k)).length := by
                refine length_filter_lt_filter _ _ ?_ bd.name ?_ ?_ (classValueNames tbl) hbk
                · intro x hx
                  have hxf : (setInsert (setInsert v cd.name) bd.name).contains x = false := by
                    cases hcc : (setInsert (setInsert v cd.name) bd.name).contains x
                    · rfl
                    · rw [hcc] at hx
                      exact absurd hx (by decide)
                  rw [contains_setInsert_false hxf]
                  rfl
                · have hcin : (setInsert (setInsert v cd.name) bd.name).contains bd.name = true :=
                    contains_true_of_mem ((mem_setInsert bd.name bd.name (setInsert v cd.name)).mpr (Or.inl rfl))
                  rw [hcin]
                  rfl
                · rw [contains_false_of_not_mem hbv]
                  rfl
              have hrec := ih bd (setInsert v cd.name) (by omega)
              obtain ⟨bi, hbi⟩ := Option.isSome_iff_exists.mp hrec
              simp [getAllInvariantsHelperFuel, hv, hb, hl, hbi]
      · have hbf : cd.hasExplicitBase = false := Bool.eq_false_iff.mpr hb
        simp [getAllInvariantsHelperFuel, hv, hbf]

/-- C9: the three visited-set guarded inheritance walks never run out at
the fuel the analyzer uses, on every symbol table (cyclic base relations
included) and every starting point, because each recursive step enters a
table name not yet visited. -/
theorem claim9_inheritance_walks_terminate :
    (∀ (tbl : SymbolTable) (className : String) (visited : List String),
        (hasInheritanceCycleFuel tbl (tbl.length + 2) className visited).isSome = true) ∧
    (∀ (tbl : SymbolTable) (cd : ClassDeclaration) (visited : List String),
        (getAllFieldsHelperFuel tbl (tbl.length + 2) cd visited).isSome = true) ∧
    (∀ (tbl : SymbolTable) (cd : ClassDeclaration) (visited : List String),
        (getAllInvariantsHelperFuel tbl (tbl.length + 2) cd visited).isSome = true) := by
  have hkeys : ∀ (tbl : SymbolTable) (pr : String → Bool),
      ((keysOf tbl).filter pr).length ≤ tbl.length := by
    intro tbl pr
    calc ((keysOf tbl).filter pr).length ≤ (keysOf tbl).length := List.length_filter_le pr (keysOf tbl)
    _ = tbl.length := List.length_map tbl Prod.fst
  have hvals : ∀ (tbl : SymbolTable) (pr : String → Bool),
      ((classValueNames tbl).filter pr).length ≤ tbl.length := by
    intro tbl pr
    calc ((classValueNames tbl).filter pr).length ≤ (classValueNames tbl).length :=
        List.length_filter_le pr (classValueNames tbl)
    _ ≤ tbl.length := List.length_filterMap_le _ tbl
  refine ⟨?_, ?_, ?_⟩
  · intro tbl className visited
    exact hasInheritanceCycleFuel_isSome tbl (tbl.length + 2) className visited
      (by have := hkeys tbl (fun k => !visited.contains k); omega)
  · intro tbl cd visited
    exact getAllFieldsHelperFuel_isSome tbl (tbl.length + 2) cd visited
      (by have := hvals tbl (fun k => !(setInsert visited cd.name).contains k); omega)
  · intro tbl cd visited
    exact getAllInvariantsHelperFuel_isSome tbl (tbl.length + 2) cd visited
      (by have := hvals tbl (fun k => !(setInsert visited cd.name).contains k); omega)

theorem keysOf_primTbl : keysOf primTbl = primitiveNames := by
  rw [primTbl_eq]
  rfl

theorem typeExists_eq_false_of_not_key (tbl : SymbolTable) (x : String) (h : x ∉ keysOf tbl) :
    typeExists tbl x = false := by
  unfold typeExists
  rw [List.any_eq_false]
  intro p hp hcon
  apply h
  have hpx : p.1 = x := by simpa using hcon
  rw [← hpx]
  exact List.mem_map_of_mem Prod.fst hp

theorem lookupType_append_of_not_key (t1 t2 : SymbolTable) (x : String) (h : x ∉ keysOf t1) :
    lookupType (t1 ++ t2) x = lookupType t2 x := by
  unfold lookupType
  rw [List.find?_append]
  have hn : t1.find? (fun p => p.1 == x) = none := by
    rw [List.find?_eq_none]
    intro p hp hcon
    apply h
    have hpx : p.1 = x := by simpa using hcon
    rw [← hpx]
    exact List.mem_map_of_mem Prod.fst hp
  rw [hn, Option.none_or]

/-- One unfolding step of the fuel-indexed cycle walk. -/
theorem hasInheritanceCycleFuel_succ (tbl : SymbolTable) (fuel : Nat) (className : String)
    (visited : List String) :
    hasInheritanceCycleFuel tbl (fuel + 1) className visited =
      (if visited.contains className then some true
       else
         match lookupType tbl className with
         | some (.classSym cd) =>
           if cd.hasExplicitBase then
             hasInheritanceCycleFuel tbl fuel cd.baseType (setInsert visited className)
           else some false
         | _ => some false) := rfl

/-- The walk of HasInheritanceCycle on a two-class cycle: starting at y
with only x visited, where y resolves to a class whose base is x, the
second step finds x visited and reports the cycle, whatever the fuel. -/
theorem hasInheritanceCycleFuel_two (T : SymbolTable) (x y : String) (cdY : ClassDeclaration)
    (hxy : y ∉ [x]) (hly : lookupType T y = some (.classSym cdY))
    (hbase : cdY.hasExplicitBase = true) (hYbase : cdY.baseType = x) :
    ∀ n : Nat, hasInheritanceCycleFuel T (n + 2) y [x] = some true := by
  intro n
  have hmx : x ∈ setInsert [x] y := (mem_setInsert y x [x]).mpr (Or.inr (by simp))
  have hadd : n + 2 = (n + 1) + 1 := rfl
  rw [hadd, hasInheritanceCycleFuel_succ, contains_false_of_not_mem hxy]
  rw [if_neg (by exact Bool.false_ne_true), hly]
  simp only [hbase, if_pos, if_true, hYbase]
  rw [hasInheritanceCycleFuel_succ, contains_true_of_mem hmx]
  rfl

/-- The C7 program shape: class a inherits b, class b inherits a. -/
def cycleAst (a b : String) : AST :=
  ⟨[.classDecl ⟨a, b, [], []⟩, .classDecl ⟨b, a, [], []⟩]⟩

theorem cycle_analyze (a b : String) (hab : a ≠ b) (ha : a ∉ primitiveNames)
    (hb : b ∉ primitiveNames) (hae : a ≠ "") (hbe : b ≠ "") :
    (analyze (cycleAst a b)).1 = false ∧
    Diag.circularInheritance a ∈ (analyze (cycleAst a b)).2.2.diags ∧
    Diag.circularInheritance b ∈ (analyze (cycleAst a b)).2.2.diags := by
  have hka : a ∉ keysOf primTbl := by rw [keysOf_primTbl]; exact ha
  have hkb : b ∉ keysOf primTbl := by rw [keysOf_primTbl]; exact hb
  have hTa : typeExists primTbl a = false := typeExists_eq_false_of_not_key _ _ hka
  have hkb1 : b ∉ keysOf (primTbl ++ [(a, TypeSymbol.classSym ⟨a, b, [], []⟩)]) := by
    simp only [keysOf, List.map_append] at *
    intro hcon
    rcases List.mem_append.mp hcon with h | h
    · exact hkb h
    · simp at h
      exact hab h.symm
  have hTb : typeExists (primTbl ++ [(a, TypeSymbol.classSym ⟨a, b, [], []⟩)]) b = false :=
    typeExists_eq_false_of_not_key _ _ hkb1
  have hbuild : buildSymbolTable primTbl emptyErrState (cycleAst a b).declarations =
      (true, primTbl ++ [(a, TypeSymbol.classSym ⟨a, b, [], []⟩), (b, TypeSymbol.classSym ⟨b, a, [], []⟩)],
        emptyErrState) := by
    simp [buildSymbolTable, buildSymbolTableLoop, cycleAst, tableInsert, hTa, hTb]
  have hLa : lookupType (primTbl ++ [(a, TypeSymbol.classSym ⟨a, b, [], []⟩),
      (b, TypeSymbol.classSym ⟨b, a, [], []⟩)]) a = some (.classSym ⟨a, b, [], []⟩) := by
    rw [lookupType_append_of_not_key _ _ _ hka]
    simp [lookupType]
  have hLb : lookupType (primTbl ++ [(a, TypeSymbol.classSym ⟨a, b, [], []⟩),
      (b, TypeSymbol.classSym ⟨b, a, [], []⟩)]) b = some (.classSym ⟨b, a, [], []⟩) := by
    rw [lookupType_append_of_not_key _ _ _ hkb]
    simp [lookupType, List.find?_cons_of_neg, beq_eq_false_iff_ne.mpr hab]
  have hbaseA : (⟨a, b, [], []⟩ : ClassDeclaration).hasExplicitBase = true := by
    simp [ClassDeclaration.hasExplicitBase, isEmpty_false_of_ne hbe]
  have hbaseB : (⟨b, a, [], []⟩ : ClassDeclaration).hasExplicitBase = true := by
    simp [ClassDeclaration.hasExplicitBase, isEmpty_false_of_ne hae]
  have hcyc1 : hasInheritanceCycle (primTbl ++ [(a, TypeSymbol.classSym ⟨a, b, [], []⟩),
      (b, TypeSymbol.classSym ⟨b, a, [], []⟩)]) b (setInsert [] a) = true := by
    unfold hasInheritanceCycle
    rw [show setInsert [] a = [a] from rfl]
    rw [hasInheritanceCycleFuel_two _ a b ⟨b, a, [], []⟩ (by simpa using Ne.symm hab) hLb hbaseB rfl _]
    rfl
  have hcyc2 : hasInheritanceCycle (primTbl ++ [(a, TypeSymbol.classSym ⟨a, b, [], []⟩),
      (b, TypeSymbol.classSym ⟨b, a, [], []⟩)]) a (setInsert [] b) = true := by
    unfold hasInheritanceCycle
    rw [show setInsert [] b = [b] from rfl]
    rw [hasInheritanceCycleFuel_two _ b a ⟨a, b, [], []⟩ (by simpa using hab) hLa hbaseA rfl _]
    rfl
  have hcycles : ∀ (bb : Bool) (s : ErrState),
      cyclesPass (primTbl ++ [(a, TypeSymbol.classSym ⟨a, b, [], []⟩),
        (b, TypeSymbol.classSym ⟨b, a, [], []⟩)]) (cycleAst a b).declarations bb s =
      (false, reportError (reportError s (.circularInheritance a)) (.circularInheritance b)) := by
    intro bb s
    simp [cycleAst, cyclesPass, hbaseA, hbaseB, hcyc1, hcyc2]
  have hvtr : validateTypeReferences (primTbl ++ [(a, TypeSymbol.classSym ⟨a, b, [], []⟩),
      (b, TypeSymbol.classSym ⟨b, a, [], []⟩)]) emptyErrState (cycleAst a b).declarations =
      (false, reportError (reportError
        (validateClassesPass (primTbl ++ [(a, TypeSymbol.classSym ⟨a, b, [], []⟩),
          (b, TypeSymbol.classSym ⟨b, a, [], []⟩)]) (cycleAst a b).declarations true emptyErrState).2
        (.circularInheritance a)) (.circularInheritance b)) := by
    unfold validateTypeReferences
    rw [hcycles]
  have hreg : registerPrimitiveTypes [] = primTbl := rfl
  have hB1 : (buildSymbolTable primTbl emptyErrState (cycleAst a b).declarations).1 = true := by
    rw [hbuild]
  have hB21 : (buildSymbolTable primTbl emptyErrState (cycleAst a b).declarations).2.1 =
      primTbl ++ [(a, TypeSymbol.classSym ⟨a, b, [], []⟩), (b, TypeSymbol.classSym ⟨b, a, [], []⟩)] := by
    rw [hbuild]
  have hB22 : (buildSymbolTable primTbl emptyErrState (cycleAst a b).declarations).2.2 = emptyErrState := by
    rw [hbuild]
  have hana : analyze (cycleAst a b) =
      (false, primTbl ++ [(a, TypeSymbol.classSym ⟨a, b, [], []⟩),
          (b, TypeSymbol.classSym ⟨b, a, [], []⟩)],
        reportError (reportError
          (validateClassesPass (primTbl ++ [(a, TypeSymbol.classSym ⟨a, b, [], []⟩),
            (b, TypeSymbol.classSym ⟨b, a, [], []⟩)]) (cycleAst a b).declarations true emptyErrState).2
          (.circularInheritance a)) (.circularInheritance b)) := by
    simp [analyze, hreg, hB1, hB21, hB22, hvtr]
  rw [hana]
  refine ⟨rfl, ?_, ?_⟩
  · simp [reportError]
  · simp [reportError]

/-- C7: a two-class inheritance cycle between distinct non-primitive
class names always produces CircularInheritance diagnostics for both
classes and analysis failure, in either declaration order. -/
theorem claim7_two_class_cycle (a b : String) (hab : a ≠ b) (ha : a ∉ primitiveNames)
    (hb : b ∉ primitiveNames) (hae : a ≠ "") (hbe : b ≠ "") :
    ((analyze (cycleAst a b)).1 = false ∧
      Diag.circularInheritance a ∈ (analyze (cycleAst a b)).2.2.diags) ∧
    ((analyze (cycleAst b a)).1 = false ∧
      Diag.circularInheritance a ∈ (analyze (cycleAst b a)).2.2.diags) := by
  obtain ⟨h1, h2, -⟩ := cycle_analyze a b hab ha hb hae hbe
  obtain ⟨h3, -, h4⟩ := cycle_analyze b a (Ne.symm hab) hb ha hbe hae
  exact ⟨⟨h1, h2⟩, ⟨h3, h4⟩⟩

/-- C7 witness: the cycle between the concrete classes A and B. -/
theorem claim7_two_class_cycle_witness :
    ((analyze (cycleAst "A" "B")).1 = false ∧
      Diag.circularInheritance "A" ∈ (analyze (cycleAst "A" "B")).2.2.diags) ∧
    ((analyze (cycleAst "B" "A")).1 = false ∧
      Diag.circularInheritance "A" ∈ (analyze (cycleAst "B" "A")).2.2.diags) :=
  claim7_two_class_cycle "A" "B" (by decide) (by decide) (by decide) (by decide) (by decide)

/-- C8: a null declaration tree is rejected by the driver alone: the
result is empty-handed with the single driver error message, no semantic
diagnostic is ever sent, and the output differs from the output of any
actual analysis run, which always begins with the started status line. -/
theorem claim8_null_ast_rejected_distinctly :
    phase1 none = (none, [.errorMsg "Error: Cannot perform semantic analysis on null AST"]) ∧
    (∀ d : Diag, ConsoleMsg.semanticError d ∉ (phase1 none).2) ∧
    (∀ ast : AST, (phase1 (some ast)).2.head? =
        some (.statusMsg "Phase 1 (Semantic Analysis) started...")) ∧
    (∀ ast : AST, (phase1 (some ast)).2 ≠ (phase1 none).2) := by
  have hhead : ∀ ast : AST, (phase1 (some ast)).2.head? =
      some (ConsoleMsg.statusMsg "Phase 1 (Semantic Analysis) started...") := by
    intro ast
    by_cases hA : (analyze ast).1 = true
    · simp [phase1, hA]
    · have hAf := Bool.eq_false_iff.mpr hA
      simp [phase1, hAf]
  refine ⟨rfl, ?_, hhead, ?_⟩
  · intro d hd
    simp [phase1] at hd
  · intro ast hcon
    have h1 := hhead ast
    rw [hcon] at h1
    simp [phase1] at h1

end ModelCompiler
